import Mathlib

/-
Verification of the corpus-construction traversal of the generate_world
sample (src/generate_world/world_generator.py and
src/generate_world/generate_world.py).

The generation service (dspy-backed FactAndSubtopicGenerator and
ArticleFromFactsGenerator) is an external I/O-bound collaborator; it is
modelled as a pair of deterministic functions that may fail (Option).
Within one build every facts-and-subtopics call and every article call
receives distinct arguments (topic names processed are pairwise distinct),
so a deterministic function covers every possible single run of the
nondeterministic service.

The traversal loop of build_corpus is embedded as a one-iteration step
function plus a fuel-indexed iterator; the instrumentation field trace
records every generation-service call with its arguments in order.
A raised exception in a service call is modelled by the service returning
none; the loop then stops with Status.failed, returning the builder state
as it stood (the Python instance keeps generated_corpus across the raise).
-/

/-- Pydantic model SubtopicDetail (world_generator.py lines 9-11):
a candidate child topic with a name and a description. -/
structure SubtopicDetail where
  name : String
  description : String
deriving DecidableEq

/-- Pydantic model GeneratedArticleData (world_generator.py lines 14-26):
the per-topic record stored in the corpus. -/
structure GeneratedArticleData where
  article : String
  facts : List String
  subtopics : List SubtopicDetail
  depth : Nat
deriving DecidableEq

/-- GeneratedCorpus (world_generator.py line 30): a Python dict from topic
name to GeneratedArticleData, modelled as an association list in insertion
order. -/
abbrev GeneratedCorpus := List (String × GeneratedArticleData)

/-- One call made to the generation service, with its arguments. -/
inductive GenCall where
  | factsSubtopics (topic_name topic_description : String)
      (ancestral_facts : List String) (num_subtopics : Nat)
  | article (topic_name : String) (facts ancestral_facts : List String)
deriving DecidableEq

/-- The generation service consumed by the builder: the combined
facts-and-subtopics operation (FactAndSubtopicGenerator.forward) and the
article operation (ArticleFromFactsGenerator.forward). A none result
models a raised exception in the underlying dspy call. -/
structure GenService where
  genFactsSubtopics :
    String → String → List String → Nat → Option (List String × List SubtopicDetail)
  genArticle : String → List String → List String → Option String

/-- A pending work item of the traversal queue:
(topic_name, topic_description, depth). -/
structure QItem where
  name : String
  description : String
  depth : Nat
deriving DecidableEq

/-- The mutable state owned by one builder during build_corpus: the FIFO
queue, the visited set (a duplicate-free list), the corpus dict, the
ancestral-facts accumulator, and the instrumentation trace of service
calls. -/
structure BuildState where
  queue : List QItem
  visited_topics : List String
  generated_corpus : GeneratedCorpus
  ancestral_facts : List String
  trace : List GenCall
deriving DecidableEq

/-- How one run of build_corpus ended: the loop drained its queue
normally, a generation call raised, or the model's fuel ran out before
either happened. -/
inductive Status where
  | done
  | failed
  | fuelOut
deriving DecidableEq

/-- Result of one loop iteration: continue with the next state, stop
because the queue is empty, or stop because a service call raised. -/
inductive StepRes where
  | next (s : BuildState)
  | halt (s : BuildState)
  | failed (s : BuildState)
deriving DecidableEq

namespace WorldCorpusBuilder

/-- Python dict assignment on GeneratedCorpus
(self.generated_corpus[topic_name] = entry, world_generator.py line 223):
replace in place when the key exists, append otherwise. -/
def dictInsert : GeneratedCorpus → String → GeneratedArticleData → GeneratedCorpus
  | [], k, v => [(k, v)]
  | (k', v') :: rest, k, v =>
    if k' = k then (k, v) :: rest else (k', v') :: dictInsert rest k v

/-- The subtopic-queueing loop (world_generator.py lines 232-253): for
each proposed subtopic in order, enqueue (name, description, depth+1)
when the name is nonempty and not in the visited set; otherwise skip it
without error. In the typed embedding every element is a SubtopicDetail,
so the isinstance guard of line 234 never fires. -/
def enqueueSubs (visited : List String) (depth : Nat) :
    List SubtopicDetail → List QItem
  | [] => []
  | st :: rest =>
    if st.name ≠ "" ∧ st.name ∉ visited then
      ⟨st.name, st.description, depth + 1⟩ :: enqueueSubs visited depth rest
    else
      enqueueSubs visited depth rest

/-- The num_subtopics policy (world_generator.py lines 199-201):
8 at depth 0, else 4. -/
def numSubtopics (depth : Nat) : Nat := if depth = 0 then 8 else 4

/-- One iteration of the while loop of build_corpus (world_generator.py
lines 176-259): dequeue, apply the two skip rules, mark visited, make
both generation calls, record the corpus entry, extend ancestral facts,
enqueue subtopics when depth is below max_depth. -/
def step (svc : GenService) (max_depth : Int) (s : BuildState) : StepRes :=
  match s.queue with
  | [] => .halt s
  | it :: rest =>
    if it.name ∈ s.visited_topics then .next { s with queue := rest }
    else if (it.depth : Int) > max_depth then .next { s with queue := rest }
    else
      let visited' := s.visited_topics ++ [it.name]
      let fsc := GenCall.factsSubtopics it.name it.description
        s.ancestral_facts (numSubtopics it.depth)
      match svc.genFactsSubtopics it.name it.description s.ancestral_facts
          (numSubtopics it.depth) with
      | none =>
        .failed
          { s with
            queue := rest
            visited_topics := visited'
            trace := s.trace ++ [fsc] }
      | some (facts, subs) =>
        let ac := GenCall.article it.name facts s.ancestral_facts
        match svc.genArticle it.name facts s.ancestral_facts with
        | none =>
          .failed
            { s with
              queue := rest
              visited_topics := visited'
              trace := s.trace ++ [fsc, ac] }
        | some art =>
          .next
            { queue := rest ++
                (if (it.depth : Int) < max_depth then
                  enqueueSubs visited' it.depth subs
                else []),
              visited_topics := visited',
              generated_corpus :=
                dictInsert s.generated_corpus it.name ⟨art, facts, subs, it.depth⟩,
              ancestral_facts := s.ancestral_facts ++ facts,
              trace := s.trace ++ [fsc, ac] }

/-- The while loop of build_corpus as a fuel-indexed iteration of step. -/
def run (svc : GenService) (max_depth : Int) : Nat → BuildState → BuildState × Status
  | 0, s => (s, .fuelOut)
  | fuel + 1, s =>
    match step svc max_depth s with
    | .halt s' => (s', .done)
    | .failed s' => (s', .failed)
    | .next s' => run svc max_depth fuel s'

/-- The builder state at entry of build_corpus for a fresh
WorldCorpusBuilder(topic_name, topic_description, max_depth): empty
corpus, visited set and ancestral facts, queue seeded with the root at
depth 0 (world_generator.py lines 162-166 and 173-175). -/
def initState (topic_name topic_description : String) : BuildState :=
  { queue := [⟨topic_name, topic_description, 0⟩],
    visited_topics := [],
    generated_corpus := [],
    ancestral_facts := [],
    trace := [] }

/-- WorldCorpusBuilder(topic_name, topic_description, max_depth)
.build_corpus(), run with the given fuel. -/
def build_corpus (svc : GenService) (topic_name topic_description : String)
    (max_depth : Int) (fuel : Nat) : BuildState × Status :=
  run svc max_depth fuel (initState topic_name topic_description)

/-- The state carried by a step result, whichever way the iteration
ended. -/
def stateOf : StepRes → BuildState
  | .next s => s
  | .halt s => s
  | .failed s => s

/-- The successor state of a processed topic (both generation calls
succeeded): the corpus gains the topic's entry, the ancestral facts gain
the topic's facts, the queue loses the front item and gains the enqueued
subtopics, and the trace gains the two calls. -/
def processedState (max_depth : Int) (s : BuildState) (it : QItem) (rest : List QItem)
    (facts : List String) (subs : List SubtopicDetail) (art : String) : BuildState :=
  { queue := rest ++
      (if (it.depth : Int) < max_depth then
        enqueueSubs (s.visited_topics ++ [it.name]) it.depth subs
      else []),
    visited_topics := s.visited_topics ++ [it.name],
    generated_corpus :=
      dictInsert s.generated_corpus it.name ⟨art, facts, subs, it.depth⟩,
    ancestral_facts := s.ancestral_facts ++ facts,
    trace := s.trace ++
      [GenCall.factsSubtopics it.name it.description s.ancestral_facts
        (numSubtopics it.depth),
       GenCall.article it.name facts s.ancestral_facts] }

/-- The keys of a corpus dict, in insertion order. -/
def corpusKeys (c : GeneratedCorpus) : List String := c.map Prod.fst

/-- The builder-state well-formedness maintained by the loop: the visited
set has no duplicates, every corpus key has been visited, and the corpus
keys are pairwise distinct. -/
def WF (s : BuildState) : Prop :=
  s.visited_topics.Nodup ∧
  corpusKeys s.generated_corpus ⊆ s.visited_topics ∧
  (corpusKeys s.generated_corpus).Nodup

/-- The facts lists of the corpus entries, in insertion order. -/
def corpusFacts (c : GeneratedCorpus) : List (List String) :=
  c.map (fun p => p.2.facts)

/-- The ancestral-facts arguments of the facts-and-subtopics calls of a
trace, in call order. -/
def fsCallAncs : List GenCall → List (List String)
  | [] => []
  | GenCall.factsSubtopics _ _ anc _ :: rest => anc :: fsCallAncs rest
  | GenCall.article _ _ _ :: rest => fsCallAncs rest

/-- The ancestral-facts arguments of the article calls of a trace, in
call order. -/
def articleCallAncs : List GenCall → List (List String)
  | [] => []
  | GenCall.article _ _ anc :: rest => anc :: articleCallAncs rest
  | GenCall.factsSubtopics _ _ _ _ :: rest => articleCallAncs rest

/-- The ancestral-facts sequence the Nth processed topic should see, for
every N: the concatenation, in processing order, of the facts lists of
the topics before it. -/
def ancExpected (c : GeneratedCorpus) : List (List String) :=
  (List.range c.length).map (fun i => ((c.take i).map (fun p => p.2.facts)).flatten)

/-- The trace is two calls per corpus entry, in corpus order: a
facts-and-subtopics call followed by an article call for the same topic,
both carrying the accumulated ancestral facts as they stood before the
topic, with the facts of the entry appearing as the article call's facts
argument, and the accumulator growing by exactly those facts afterwards. -/
def TraceCorpus : List String → GeneratedCorpus → List GenCall → Prop
  | _, [], [] => True
  | acc, (nm, e) :: cs,
      GenCall.factsSubtopics n₁ _ anc₁ k :: GenCall.article n₂ f₂ anc₂ :: rest =>
    n₁ = nm ∧ n₂ = nm ∧ anc₁ = acc ∧ anc₂ = acc ∧ f₂ = e.facts ∧
      k = numSubtopics e.depth ∧ TraceCorpus (acc ++ e.facts) cs rest
  | _, _, _ => False

/-- The trace alternates facts-and-subtopics and article calls, and each
article call names the same topic and carries exactly the same
ancestral-facts argument as the facts-and-subtopics call before it. -/
def PairedSameSnapshot : List GenCall → Prop
  | [] => True
  | GenCall.factsSubtopics n _ anc _ :: GenCall.article n' _ anc' :: rest =>
    n' = n ∧ anc' = anc ∧ PairedSameSnapshot rest
  | _ => False

/-- The ancestral-facts snapshots, entry by entry, starting from a given
accumulator. -/
def snaps : List String → GeneratedCorpus → List (List String)
  | _, [] => []
  | acc, (_, e) :: cs => acc :: snaps (acc ++ e.facts) cs

/-- A state whose trace, corpus and ancestral-facts accumulator are in
agreement. -/
def Aligned (s : BuildState) : Prop :=
  TraceCorpus [] s.generated_corpus s.trace ∧
  s.ancestral_facts = (corpusFacts s.generated_corpus).flatten ∧
  corpusKeys s.generated_corpus ⊆ s.visited_topics

/-- The number of topic-processing steps a trace records: one
facts-and-subtopics call is made per processed topic. -/
def fsCount (t : List GenCall) : Nat :=
  t.countP (fun c => match c with
    | GenCall.factsSubtopics _ _ _ _ => true
    | _ => false)

/-- The subtopic names the (deterministic) service proposes in answer to
one recorded call. -/
def proposedOf (svc : GenService) (c : GenCall) : List String :=
  match c with
  | GenCall.factsSubtopics n d anc k =>
    (match svc.genFactsSubtopics n d anc k with
     | some (_, subs) => subs.map (fun st => st.name)
     | none => [])
  | GenCall.article _ _ _ => []

/-- All subtopic names ever proposed during the calls of a trace. -/
def proposedNames (svc : GenService) (t : List GenCall) : List String :=
  (t.map (proposedOf svc)).flatten

/-- Counting invariant: the number of facts-and-subtopics calls equals
the number of visited topics, every visited topic and every queued item
is the root or a proposed subtopic name. -/
def Counted (svc : GenService) (root : String) (s : BuildState) : Prop :=
  fsCount s.trace = s.visited_topics.length ∧
  s.visited_topics ⊆ root :: proposedNames svc s.trace ∧
  (∀ it ∈ s.queue, it.name ∈ root :: proposedNames svc s.trace)

end WorldCorpusBuilder

namespace BFSWorldCorpusBuilder

/-- Python dict assignment on GeneratedCorpus
(self.generated_corpus[topic_name] = entry, generate_world.py line 190):
replace in place when the key exists, append otherwise. -/
def dictInsert : GeneratedCorpus → String → GeneratedArticleData → GeneratedCorpus
  | [], k, v => [(k, v)]
  | (k', v') :: rest, k, v =>
    if k' = k then (k, v) :: rest else (k', v') :: dictInsert rest k v

/-- The subtopic-queueing loop (generate_world.py lines 197-210): for each
proposed subtopic in order, enqueue (name, description, depth+1) when the
name is nonempty and not in the visited set; otherwise skip it without
error. -/
def enqueueSubs (visited : List String) (depth : Nat) :
    List SubtopicDetail → List QItem
  | [] => []
  | st :: rest =>
    if st.name ≠ "" ∧ st.name ∉ visited then
      ⟨st.name, st.description, depth + 1⟩ :: enqueueSubs visited depth rest
    else
      enqueueSubs visited depth rest

/-- The num_subtopics policy (generate_world.py line 169): 8 at depth 0,
else 4. -/
def numSubtopics (depth : Nat) : Nat := if depth = 0 then 8 else 4

/-- One iteration of the while loop of BFSWorldCorpusBuilder.build_corpus
(generate_world.py lines 150-214). -/
def step (svc : GenService) (max_depth : Int) (s : BuildState) : StepRes :=
  match s.queue with
  | [] => .halt s
  | it :: rest =>
    if it.name ∈ s.visited_topics then .next { s with queue := rest }
    else if (it.depth : Int) > max_depth then .next { s with queue := rest }
    else
      let visited' := s.visited_topics ++ [it.name]
      let fsc := GenCall.factsSubtopics it.name it.description
        s.ancestral_facts (numSubtopics it.depth)
      match svc.genFactsSubtopics it.name it.description s.ancestral_facts
          (numSubtopics it.depth) with
      | none =>
        .failed
          { s with
            queue := rest
            visited_topics := visited'
            trace := s.trace ++ [fsc] }
      | some (facts, subs) =>
        let ac := GenCall.article it.name facts s.ancestral_facts
        match svc.genArticle it.name facts s.ancestral_facts with
        | none =>
          .failed
            { s with
              queue := rest
              visited_topics := visited'
              trace := s.trace ++ [fsc, ac] }
        | some art =>
          .next
            { queue := rest ++
                (if (it.depth : Int) < max_depth then
                  enqueueSubs visited' it.depth subs
                else []),
              visited_topics := visited',
              generated_corpus :=
                dictInsert s.generated_corpus it.name ⟨art, facts, subs, it.depth⟩,
              ancestral_facts := s.ancestral_facts ++ facts,
              trace := s.trace ++ [fsc, ac] }

/-- The while loop of BFSWorldCorpusBuilder.build_corpus as a fuel-indexed
iteration of step. -/
def run (svc : GenService) (max_depth : Int) : Nat → BuildState → BuildState × Status
  | 0, s => (s, .fuelOut)
  | fuel + 1, s =>
    match step svc max_depth s with
    | .halt s' => (s', .done)
    | .failed s' => (s', .failed)
    | .next s' => run svc max_depth fuel s'

/-- The builder state at entry of build_corpus for a fresh
BFSWorldCorpusBuilder(topic_name, topic_description, max_depth)
(generate_world.py lines 140-142 and 147-149). -/
def initState (topic_name topic_description : String) : BuildState :=
  { queue := [⟨topic_name, topic_description, 0⟩],
    visited_topics := [],
    generated_corpus := [],
    ancestral_facts := [],
    trace := [] }

/-- BFSWorldCorpusBuilder(topic_name, topic_description, max_depth)
.build_corpus(), run with the given fuel. -/
def build_corpus (svc : GenService) (topic_name topic_description : String)
    (max_depth : Int) (fuel : Nat) : BuildState × Status :=
  run svc max_depth fuel (initState topic_name topic_description)

end BFSWorldCorpusBuilder

/-- A generation service all of whose calls succeed. -/
def SvcTotal (svc : GenService) : Prop :=
  (∀ n d a k, (svc.genFactsSubtopics n d a k).isSome) ∧
  (∀ n f a, (svc.genArticle n f a).isSome)

/-- Facts of the deterministic stub service used as a concrete witness:
the end-to-end scenario of the design document, root A with children B
and C. -/
def demoFacts (n : String) : List String :=
  if n = "A" then ["f1", "f2"]
  else if n = "B" then ["f3"]
  else if n = "C" then ["f4"]
  else ["g"]

/-- Subtopics of the deterministic stub service: A proposes B and C,
everything else proposes nothing. -/
def demoSubs (n : String) : List SubtopicDetail :=
  if n = "A" then [⟨"B", "dB"⟩, ⟨"C", "dC"⟩] else []

/-- The deterministic stub generation service, never failing. -/
def svcDemo : GenService where
  genFactsSubtopics := fun n _ _ _ => some (demoFacts n, demoSubs n)
  genArticle := fun n _ _ => some ("art-" ++ n)

/-- A stub service in which topic C is proposed by two different parents:
A proposes B and C, and B proposes C again. -/
def svcDup : GenService where
  genFactsSubtopics := fun n _ _ _ =>
    some (demoFacts n,
      if n = "A" then [⟨"B", "dB"⟩, ⟨"C", "dC"⟩]
      else if n = "B" then [⟨"C", "dC2"⟩]
      else [])
  genArticle := fun n _ _ => some ("art-" ++ n)

/-- A stub service whose facts-and-subtopics call raises on topic B and
succeeds elsewhere. -/
def svcFailB : GenService where
  genFactsSubtopics := fun n _ _ _ =>
    if n = "B" then none else some (demoFacts n, demoSubs n)
  genArticle := fun n _ _ => some ("art-" ++ n)

/-- A stub service whose article call raises on topic B. -/
def svcFailArtB : GenService where
  genFactsSubtopics := fun n _ _ _ => some (demoFacts n, demoSubs n)
  genArticle := fun n _ _ => if n = "B" then none else some ("art-" ++ n)

namespace WorldCorpusBuilder

/-- Exhaustive characterization of one loop iteration: the queue is
empty, the front item is skipped (visited or beyond the depth bound), a
generation call fails, or the topic is fully processed. -/
theorem step_cases (svc : GenService) (max_depth : Int) (s : BuildState) :
    (s.queue = [] ∧ step svc max_depth s = .halt s) ∨
    (∃ it rest, s.queue = it :: rest ∧ it.name ∈ s.visited_topics ∧
      step svc max_depth s = .next { s with queue := rest }) ∨
    (∃ it rest, s.queue = it :: rest ∧ it.name ∉ s.visited_topics ∧
      (it.depth : Int) > max_depth ∧
      step svc max_depth s = .next { s with queue := rest }) ∨
    (∃ it rest, s.queue = it :: rest ∧ it.name ∉ s.visited_topics ∧
      ¬ (it.depth : Int) > max_depth ∧
      svc.genFactsSubtopics it.name it.description s.ancestral_facts
        (numSubtopics it.depth) = none ∧
      step svc max_depth s = .failed
        { s with
          queue := rest
          visited_topics := s.visited_topics ++ [it.name]
          trace := s.trace ++
            [GenCall.factsSubtopics it.name it.description s.ancestral_facts
              (numSubtopics it.depth)] }) ∨
    (∃ it rest facts subs, s.queue = it :: rest ∧ it.name ∉ s.visited_topics ∧
      ¬ (it.depth : Int) > max_depth ∧
      svc.genFactsSubtopics it.name it.description s.ancestral_facts
        (numSubtopics it.depth) = some (facts, subs) ∧
      svc.genArticle it.name facts s.ancestral_facts = none ∧
      step svc max_depth s = .failed
        { s with
          queue := rest
          visited_topics := s.visited_topics ++ [it.name]
          trace := s.trace ++
            [GenCall.factsSubtopics it.name it.description s.ancestral_facts
              (numSubtopics it.depth),
             GenCall.article it.name facts s.ancestral_facts] }) ∨
    (∃ it rest facts subs art, s.queue = it :: rest ∧ it.name ∉ s.visited_topics ∧
      ¬ (it.depth : Int) > max_depth ∧
      svc.genFactsSubtopics it.name it.description s.ancestral_facts
        (numSubtopics it.depth) = some (facts, subs) ∧
      svc.genArticle it.name facts s.ancestral_facts = some art ∧
      step svc max_depth s = .next (processedState max_depth s it rest facts subs art)) := by
  cases hq : s.queue with
  | nil => exact Or.inl ⟨rfl, by unfold step; rw [hq]⟩
  | cons it rest =>
    by_cases hv : it.name ∈ s.visited_topics
    · refine Or.inr (Or.inl ⟨it, rest, rfl, hv, ?_⟩)
      unfold step; rw [hq]; simp [hv]
    · by_cases hd : (it.depth : Int) > max_depth
      · refine Or.inr (Or.inr (Or.inl ⟨it, rest, rfl, hv, hd, ?_⟩))
        unfold step; rw [hq]; simp [hv, hd]
      · cases hf : svc.genFactsSubtopics it.name it.description s.ancestral_facts
            (numSubtopics it.depth) with
        | none =>
          refine Or.inr (Or.inr (Or.inr (Or.inl ⟨it, rest, rfl, hv, hd, hf, ?_⟩)))
          unfold step; rw [hq]; simp [hv, hd, hf]
        | some p =>
          obtain ⟨facts, subs⟩ := p
          cases ha : svc.genArticle it.name facts s.ancestral_facts with
          | none =>
            refine Or.inr (Or.inr (Or.inr (Or.inr (Or.inl
              ⟨it, rest, facts, subs, rfl, hv, hd, hf, ha, ?_⟩))))
            unfold step; rw [hq]; simp [hv, hd, hf, ha]
          | some art =>
            refine Or.inr (Or.inr (Or.inr (Or.inr (Or.inr
              ⟨it, rest, facts, subs, art, rfl, hv, hd, hf, ha, ?_⟩))))
            unfold step; rw [hq]; simp [hv, hd, hf, ha, processedState]

/-- Running with zero fuel reports fuel exhaustion. -/
theorem run_zero (svc : GenService) (max_depth : Int) (s : BuildState) :
    run svc max_depth 0 s = (s, .fuelOut) := rfl

/-- A continuing iteration consumes one unit of fuel. -/
theorem run_succ_next (svc : GenService) (max_depth : Int) (fuel : Nat)
    (s s' : BuildState) (h : step svc max_depth s = .next s') :
    run svc max_depth (fuel + 1) s = run svc max_depth fuel s' := by
  conv_lhs => unfold run
  rw [h]

/-- A halting iteration ends the run with status done. -/
theorem run_succ_halt (svc : GenService) (max_depth : Int) (fuel : Nat)
    (s s' : BuildState) (h : step svc max_depth s = .halt s') :
    run svc max_depth (fuel + 1) s = (s', .done) := by
  conv_lhs => unfold run
  rw [h]

/-- A failing iteration ends the run with status failed. -/
theorem run_succ_failed (svc : GenService) (max_depth : Int) (fuel : Nat)
    (s s' : BuildState) (h : step svc max_depth s = .failed s') :
    run svc max_depth (fuel + 1) s = (s', .failed) := by
  conv_lhs => unfold run
  rw [h]

/-- Splitting fuel: a longer run is the continuation of a shorter one,
and a run that already ended is unaffected by extra fuel. -/
theorem run_add (svc : GenService) (max_depth : Int) (f₁ f₂ : Nat) (s : BuildState) :
    run svc max_depth (f₁ + f₂) s =
      (if (run svc max_depth f₁ s).2 = Status.fuelOut then
        run svc max_depth f₂ (run svc max_depth f₁ s).1
      else run svc max_depth f₁ s) := by
  induction f₁ generalizing s with
  | zero => simp [run_zero]
  | succ f₁ ih =>
    have hadd : f₁ + 1 + f₂ = (f₁ + f₂) + 1 := by omega
    rw [hadd]
    cases h : step svc max_depth s with
    | halt s' =>
      rw [run_succ_halt svc max_depth (f₁ + f₂) s s' h,
        run_succ_halt svc max_depth f₁ s s' h]
      simp
    | failed s' =>
      rw [run_succ_failed svc max_depth (f₁ + f₂) s s' h,
        run_succ_failed svc max_depth f₁ s s' h]
      simp
    | next s' =>
      rw [run_succ_next svc max_depth (f₁ + f₂) s s' h,
        run_succ_next svc max_depth f₁ s s' h]
      exact ih s'

/-- Dict assignment with a fresh key appends the binding at the end. -/
theorem dictInsert_of_not_mem (c : GeneratedCorpus) (k : String)
    (v : GeneratedArticleData) (h : k ∉ corpusKeys c) :
    dictInsert c k v = c ++ [(k, v)] := by
  induction c with
  | nil => rfl
  | cons p rest ih =>
    obtain ⟨k', v'⟩ := p
    simp only [corpusKeys, List.map_cons, List.mem_cons, not_or] at h
    unfold dictInsert
    rw [if_neg (fun hk => h.1 hk.symm), ih h.2]
    simp

/-- The initial state is well formed. -/
theorem initState_wf (topic_name topic_description : String) :
    WF (initState topic_name topic_description) := by
  refine ⟨List.nodup_nil, ?_, List.nodup_nil⟩
  intro x hx
  simp [initState, corpusKeys] at hx

/-- Appending a fresh element keeps a list duplicate-free. -/
theorem nodup_append_singleton {α : Type} {l : List α} {a : α}
    (h : l.Nodup) (ha : a ∉ l) : (l ++ [a]).Nodup := by
  simp [List.nodup_append, h, ha]

/-- One iteration preserves well-formedness and only ever appends to the
corpus, to the visited set and to the call trace. -/
theorem step_preserves (svc : GenService) (max_depth : Int) (s : BuildState)
    (h : WF s) :
    WF (stateOf (step svc max_depth s)) ∧
    (∃ t, (stateOf (step svc max_depth s)).generated_corpus =
      s.generated_corpus ++ t) ∧
    (∃ u, (stateOf (step svc max_depth s)).trace = s.trace ++ u) ∧
    (∃ w, (stateOf (step svc max_depth s)).visited_topics =
      s.visited_topics ++ w) := by
  obtain ⟨hnv, hsub, hnk⟩ := h
  rcases step_cases svc max_depth s with
    ⟨hq, hst⟩ | ⟨it, rest, hq, hv, hst⟩ | ⟨it, rest, hq, hv, hd, hst⟩ |
    ⟨it, rest, hq, hv, hd, hf, hst⟩ |
    ⟨it, rest, facts, subs, hq, hv, hd, hf, ha, hst⟩ |
    ⟨it, rest, facts, subs, art, hq, hv, hd, hf, ha, hst⟩
  · rw [hst]; exact ⟨⟨hnv, hsub, hnk⟩, ⟨[], by simp [stateOf]⟩,
      ⟨[], by simp [stateOf]⟩, ⟨[], by simp [stateOf]⟩⟩
  · rw [hst]; exact ⟨⟨hnv, hsub, hnk⟩, ⟨[], by simp [stateOf]⟩,
      ⟨[], by simp [stateOf]⟩, ⟨[], by simp [stateOf]⟩⟩
  · rw [hst]; exact ⟨⟨hnv, hsub, hnk⟩, ⟨[], by simp [stateOf]⟩,
      ⟨[], by simp [stateOf]⟩, ⟨[], by simp [stateOf]⟩⟩
  · rw [hst]
    refine ⟨⟨nodup_append_singleton hnv hv, ?_, hnk⟩, ⟨[], by simp [stateOf]⟩,
      ⟨_, rfl⟩, ⟨_, rfl⟩⟩
    exact hsub.trans (List.subset_append_left _ _)
  · rw [hst]
    refine ⟨⟨nodup_append_singleton hnv hv, ?_, hnk⟩, ⟨[], by simp [stateOf]⟩,
      ⟨_, rfl⟩, ⟨_, rfl⟩⟩
    exact hsub.trans (List.subset_append_left _ _)
  · rw [hst]
    have hkfresh : it.name ∉ corpusKeys s.generated_corpus :=
      fun hmem => hv (hsub hmem)
    have hins := dictInsert_of_not_mem s.generated_corpus it.name
      ⟨art, facts, subs, it.depth⟩ hkfresh
    refine ⟨⟨nodup_append_singleton hnv hv, ?_, ?_⟩,
      ⟨[(it.name, ⟨art, facts, subs, it.depth⟩)],
        by simp [stateOf, processedState, hins]⟩, ⟨_, rfl⟩, ⟨_, rfl⟩⟩
    · simp only [stateOf, processedState, hins, corpusKeys, List.map_append]
      rw [List.append_subset]
      constructor
      · exact hsub.trans (List.subset_append_left _ _)
      · simp
    · simp only [stateOf, processedState, hins, corpusKeys, List.map_append]
      exact nodup_append_singleton hnk hkfresh

/-- A whole run preserves well-formedness and only ever appends to the
corpus, to the visited set and to the call trace: entries committed for
completed topics stay present and unchanged. -/
theorem run_preserves (svc : GenService) (max_depth : Int) (fuel : Nat)
    (s : BuildState) (h : WF s) :
    WF (run svc max_depth fuel s).1 ∧
    (∃ t, (run svc max_depth fuel s).1.generated_corpus =
      s.generated_corpus ++ t) ∧
    (∃ u, (run svc max_depth fuel s).1.trace = s.trace ++ u) ∧
    (∃ w, (run svc max_depth fuel s).1.visited_topics =
      s.visited_topics ++ w) := by
  induction fuel generalizing s with
  | zero =>
    rw [run_zero]
    exact ⟨h, ⟨[], by simp⟩, ⟨[], by simp⟩, ⟨[], by simp⟩⟩
  | succ fuel ih =>
    obtain ⟨hwf', ⟨t₁, ht₁⟩, ⟨u₁, hu₁⟩, ⟨w₁, hw₁⟩⟩ :=
      step_preserves svc max_depth s h
    cases hst : step svc max_depth s with
    | halt s' =>
      rw [run_succ_halt svc max_depth fuel s s' hst]
      rw [hst] at hwf' ht₁ hu₁ hw₁
      exact ⟨hwf', ⟨t₁, ht₁⟩, ⟨u₁, hu₁⟩, ⟨w₁, hw₁⟩⟩
    | failed s' =>
      rw [run_succ_failed svc max_depth fuel s s' hst]
      rw [hst] at hwf' ht₁ hu₁ hw₁
      exact ⟨hwf', ⟨t₁, ht₁⟩, ⟨u₁, hu₁⟩, ⟨w₁, hw₁⟩⟩
    | next s' =>
      rw [run_succ_next svc max_depth fuel s s' hst]
      rw [hst] at hwf' ht₁ hu₁ hw₁
      simp only [stateOf] at hwf' ht₁ hu₁ hw₁
      obtain ⟨hwf'', ⟨t₂, ht₂⟩, ⟨u₂, hu₂⟩, ⟨w₂, hw₂⟩⟩ := ih s' hwf'
      refine ⟨hwf'', ⟨t₁ ++ t₂, ?_⟩, ⟨u₁ ++ u₂, ?_⟩, ⟨w₁ ++ w₂, ?_⟩⟩
      · rw [ht₂, ht₁, List.append_assoc]
      · rw [hu₂, hu₁, List.append_assoc]
      · rw [hw₂, hw₁, List.append_assoc]

/-- Inversion: an empty corpus is matched only by an empty trace. -/
theorem tc_nil_inv (acc : List String) (t : List GenCall)
    (h : TraceCorpus acc [] t) : t = [] := by
  cases t with
  | nil => rfl
  | cons c rest => cases c <;> exact h.elim

/-- Inversion: a corpus entry is matched by exactly two leading calls. -/
theorem tc_cons_inv (acc : List String) (nm : String) (e : GeneratedArticleData)
    (cs : GeneratedCorpus) (t : List GenCall)
    (h : TraceCorpus acc ((nm, e) :: cs) t) :
    ∃ ds rest,
      t = GenCall.factsSubtopics nm ds acc (numSubtopics e.depth) ::
        GenCall.article nm e.facts acc :: rest ∧
      TraceCorpus (acc ++ e.facts) cs rest := by
  cases t with
  | nil => exact h.elim
  | cons c t₂ =>
    cases c with
    | article n f anc => exact h.elim
    | factsSubtopics n₁ ds anc₁ k =>
      cases t₂ with
      | nil => exact h.elim
      | cons c₂ rest =>
        cases c₂ with
        | factsSubtopics a b u v => exact h.elim
        | article n₂ f₂ anc₂ =>
          obtain ⟨h1, h2, h3, h4, h5, h6, h7⟩ := h
          subst h1; subst h2; subst h3; subst h4; subst h5; subst h6
          exact ⟨ds, rest, rfl, h7⟩

/-- Extending an aligned trace with the two calls of one more processed
topic keeps it aligned. -/
theorem tc_snoc (acc : List String) (cs : GeneratedCorpus) (t : List GenCall)
    (nm ds : String) (e : GeneratedArticleData)
    (h : TraceCorpus acc cs t) :
    TraceCorpus acc (cs ++ [(nm, e)])
      (t ++ [GenCall.factsSubtopics nm ds (acc ++ (corpusFacts cs).flatten)
          (numSubtopics e.depth),
        GenCall.article nm e.facts (acc ++ (corpusFacts cs).flatten)]) := by
  induction cs generalizing acc t with
  | nil =>
    rw [tc_nil_inv acc t h]
    simp only [corpusFacts, List.map_nil, List.flatten_nil, List.append_nil,
      List.nil_append]
    exact ⟨rfl, rfl, rfl, rfl, rfl, rfl, trivial⟩
  | cons p cs ih =>
    obtain ⟨nm', e'⟩ := p
    obtain ⟨ds', rest, hteq, htc⟩ := tc_cons_inv acc nm' e' cs t h
    subst hteq
    refine ⟨rfl, rfl, rfl, rfl, rfl, rfl, ?_⟩
    have := ih (acc ++ e'.facts) rest htc
    simpa [corpusFacts, List.append_assoc] using this

/-- An aligned trace's facts-and-subtopics calls carry exactly the
snapshots. -/
theorem tc_fsCallAncs (acc : List String) (cs : GeneratedCorpus)
    (t : List GenCall) (h : TraceCorpus acc cs t) :
    fsCallAncs t = snaps acc cs := by
  induction cs generalizing acc t with
  | nil => rw [tc_nil_inv acc t h]; rfl
  | cons p cs ih =>
    obtain ⟨nm, e⟩ := p
    obtain ⟨ds, rest, hteq, htc⟩ := tc_cons_inv acc nm e cs t h
    subst hteq
    simp only [fsCallAncs, snaps]
    exact congrArg _ (ih _ _ htc)

/-- An aligned trace's article calls carry exactly the snapshots. -/
theorem tc_articleCallAncs (acc : List String) (cs : GeneratedCorpus)
    (t : List GenCall) (h : TraceCorpus acc cs t) :
    articleCallAncs t = snaps acc cs := by
  induction cs generalizing acc t with
  | nil => rw [tc_nil_inv acc t h]; rfl
  | cons p cs ih =>
    obtain ⟨nm, e⟩ := p
    obtain ⟨ds, rest, hteq, htc⟩ := tc_cons_inv acc nm e cs t h
    subst hteq
    simp only [articleCallAncs, fsCallAncs, snaps]
    exact congrArg _ (ih _ _ htc)

/-- An aligned trace is strictly alternating with matching snapshots. -/
theorem tc_paired (acc : List String) (cs : GeneratedCorpus)
    (t : List GenCall) (h : TraceCorpus acc cs t) :
    PairedSameSnapshot t := by
  induction cs generalizing acc t with
  | nil => rw [tc_nil_inv acc t h]; trivial
  | cons p cs ih =>
    obtain ⟨nm, e⟩ := p
    obtain ⟨ds, rest, hteq, htc⟩ := tc_cons_inv acc nm e cs t h
    subst hteq
    exact ⟨rfl, rfl, ih _ _ htc⟩

/-- The snapshots starting from an accumulator, described by take and
flatten. -/
theorem snaps_eq (acc : List String) (cs : GeneratedCorpus) :
    snaps acc cs = (List.range cs.length).map
      (fun i => acc ++ ((cs.take i).map (fun p => p.2.facts)).flatten) := by
  induction cs generalizing acc with
  | nil => rfl
  | cons p cs ih =>
    obtain ⟨nm, e⟩ := p
    simp only [snaps, List.length_cons, List.range_succ_eq_map, List.map_cons,
      List.take_zero, List.map_nil, List.flatten_nil, List.append_nil,
      List.map_map]
    refine congrArg _ ?_
    rw [ih (acc ++ e.facts)]
    refine List.map_congr_left ?_
    intro i _
    simp [List.append_assoc]

/-- The snapshots from an empty accumulator are exactly the expected
ancestral sequences. -/
theorem snaps_eq_ancExpected (cs : GeneratedCorpus) :
    snaps [] cs = ancExpected cs := by
  rw [snaps_eq, ancExpected]
  refine List.map_congr_left ?_
  intro i _
  simp

/-- One non-failing iteration preserves alignment. -/
theorem step_preserves_aligned (svc : GenService) (max_depth : Int)
    (s s' : BuildState) (hA : Aligned s)
    (hst : step svc max_depth s = .next s') : Aligned s' := by
  obtain ⟨htc, hanc, hsub⟩ := hA
  rcases step_cases svc max_depth s with
    ⟨hq, he⟩ | ⟨it, rest, hq, hv, he⟩ | ⟨it, rest, hq, hv, hd, he⟩ |
    ⟨it, rest, hq, hv, hd, hf, he⟩ |
    ⟨it, rest, facts, subs, hq, hv, hd, hf, ha, he⟩ |
    ⟨it, rest, facts, subs, art, hq, hv, hd, hf, ha, he⟩
  · rw [he] at hst; cases hst
  · rw [he] at hst
    cases hst
    exact ⟨htc, hanc, hsub⟩
  · rw [he] at hst
    cases hst
    exact ⟨htc, hanc, hsub⟩
  · rw [he] at hst; cases hst
  · rw [he] at hst; cases hst
  · rw [he] at hst
    cases hst
    have hkfresh : it.name ∉ corpusKeys s.generated_corpus :=
      fun hmem => hv (hsub hmem)
    have hins := dictInsert_of_not_mem s.generated_corpus it.name
      ⟨art, facts, subs, it.depth⟩ hkfresh
    have hsnoc := tc_snoc [] s.generated_corpus s.trace it.name it.description
      ⟨art, facts, subs, it.depth⟩ htc
    rw [List.nil_append] at hsnoc
    constructor
    · show TraceCorpus [] _ _
      simp only [processedState, hins]
      rw [← hanc] at hsnoc
      exact hsnoc
    constructor
    · show (processedState max_depth s it rest facts subs art).ancestral_facts = _
      simp only [processedState, hins, corpusFacts, List.map_append,
        List.flatten_append]
      rw [hanc]
      simp [corpusFacts]
    · show corpusKeys (processedState max_depth s it rest facts subs art).generated_corpus ⊆ _
      simp only [processedState, hins, corpusKeys, List.map_append]
      rw [List.append_subset]
      exact ⟨hsub.trans (List.subset_append_left _ _), by simp⟩

/-- A run that drains its queue preserves alignment. -/
theorem run_preserves_aligned (svc : GenService) (max_depth : Int) (fuel : Nat)
    (s : BuildState) (hA : Aligned s)
    (hdone : (run svc max_depth fuel s).2 = .done) :
    Aligned (run svc max_depth fuel s).1 := by
  induction fuel generalizing s with
  | zero => rw [run_zero] at hdone; cases hdone
  | succ fuel ih =>
    cases hst : step svc max_depth s with
    | halt s' =>
      rw [run_succ_halt svc max_depth fuel s s' hst]
      rcases step_cases svc max_depth s with
        ⟨hq, he⟩ | ⟨it, rest, hq, hv, he⟩ | ⟨it, rest, hq, hv, hd, he⟩ |
        ⟨it, rest, hq, hv, hd, hf, he⟩ |
        ⟨it, rest, facts, subs, hq, hv, hd, hf, ha, he⟩ |
        ⟨it, rest, facts, subs, art, hq, hv, hd, hf, ha, he⟩ <;>
        rw [he] at hst <;> cases hst
      exact hA
    | failed s' =>
      rw [run_succ_failed svc max_depth fuel s s' hst] at hdone
      cases hdone
    | next s' =>
      rw [run_succ_next svc max_depth fuel s s' hst] at hdone ⊢
      exact ih s' (step_preserves_aligned svc max_depth s s' hA hst) hdone

/-- The initial state is aligned. -/
theorem initState_aligned (topic_name topic_description : String) :
    Aligned (initState topic_name topic_description) := by
  refine ⟨trivial, rfl, ?_⟩
  intro x hx
  simp [initState, corpusKeys] at hx

/-- Proposed names split over trace concatenation. -/
theorem proposedNames_append (svc : GenService) (t u : List GenCall) :
    proposedNames svc (t ++ u) = proposedNames svc t ++ proposedNames svc u := by
  simp [proposedNames]

/-- Every item built by the subtopic-queueing loop sits one level deeper
than its parent. -/
theorem enqueueSubs_depth (visited : List String) (depth : Nat)
    (subs : List SubtopicDetail) :
    ∀ x ∈ enqueueSubs visited depth subs, x.depth = depth + 1 := by
  induction subs with
  | nil => intro x hx; simp [enqueueSubs] at hx
  | cons st rest ih =>
    intro x hx
    simp only [enqueueSubs] at hx
    by_cases h : st.name ≠ "" ∧ st.name ∉ visited
    · rw [if_pos h] at hx
      rcases List.mem_cons.mp hx with h' | h'
      · rw [h']
      · exact ih x h'
    · rw [if_neg h] at hx
      exact ih x hx

/-- Every item built by the subtopic-queueing loop is named after one of
the proposed subtopics. -/
theorem enqueueSubs_names (visited : List String) (depth : Nat)
    (subs : List SubtopicDetail) :
    ∀ x ∈ enqueueSubs visited depth subs,
      x.name ∈ subs.map (fun st => st.name) := by
  induction subs with
  | nil => intro x hx; simp [enqueueSubs] at hx
  | cons st rest ih =>
    intro x hx
    simp only [enqueueSubs] at hx
    by_cases h : st.name ≠ "" ∧ st.name ∉ visited
    · rw [if_pos h] at hx
      rcases List.mem_cons.mp hx with h' | h'
      · rw [h']; exact List.mem_cons_self _ _
      · exact List.mem_cons_of_mem _ (ih x h')
    · rw [if_neg h] at hx
      exact List.mem_cons_of_mem _ (ih x hx)

/-- A duplicate-free list contained in another is no longer than the
other's duplicate-free form. -/
theorem nodup_subset_dedup_length {l l' : List String} (hn : l.Nodup)
    (hs : l ⊆ l') : l.length ≤ l'.dedup.length :=
  (hn.subperm (fun x hx => List.mem_dedup.mpr (hs hx))).length_le

/-- One more facts-and-subtopics call raises the processing count by
one. -/
theorem fsCount_append_one (t : List GenCall) (n d : String)
    (anc : List String) (k : Nat) :
    fsCount (t ++ [GenCall.factsSubtopics n d anc k]) = fsCount t + 1 := by
  simp [fsCount, List.countP_append, List.countP_cons]

/-- A facts-and-subtopics call followed by an article call raises the
processing count by one. -/
theorem fsCount_append_pair (t : List GenCall) (n d : String)
    (anc : List String) (k : Nat) (n' : String) (f' anc' : List String) :
    fsCount (t ++ [GenCall.factsSubtopics n d anc k,
      GenCall.article n' f' anc']) = fsCount t + 1 := by
  simp [fsCount, List.countP_append, List.countP_cons]

/-- One iteration preserves the counting invariant. -/
theorem step_counted (svc : GenService) (max_depth : Int) (root : String)
    (s : BuildState) (h : Counted svc root s) :
    Counted svc root (stateOf (step svc max_depth s)) := by
  obtain ⟨hcnt, hvis, hqu⟩ := h
  have hmono : ∀ (u : List GenCall) (x : String),
      x ∈ root :: proposedNames svc s.trace →
      x ∈ root :: proposedNames svc (s.trace ++ u) := by
    intro u x hx
    rcases List.mem_cons.mp hx with h' | h'
    · rw [h']; exact List.mem_cons_self _ _
    · refine List.mem_cons_of_mem _ ?_
      rw [proposedNames_append]
      exact List.mem_append_left _ h'
  rcases step_cases svc max_depth s with
    ⟨hq, he⟩ | ⟨it, rest, hq, hv, he⟩ | ⟨it, rest, hq, hv, hd, he⟩ |
    ⟨it, rest, hq, hv, hd, hf, he⟩ |
    ⟨it, rest, facts, subs, hq, hv, hd, hf, ha, he⟩ |
    ⟨it, rest, facts, subs, art, hq, hv, hd, hf, ha, he⟩
  · rw [he]; exact ⟨hcnt, hvis, hqu⟩
  · rw [he]
    exact ⟨hcnt, hvis,
      fun x hx => hqu x (by rw [hq]; exact List.mem_cons_of_mem _ hx)⟩
  · rw [he]
    exact ⟨hcnt, hvis,
      fun x hx => hqu x (by rw [hq]; exact List.mem_cons_of_mem _ hx)⟩
  · rw [he]
    have hit : it.name ∈ root :: proposedNames svc s.trace :=
      hqu it (by rw [hq]; exact List.mem_cons_self _ _)
    simp only [stateOf]
    refine ⟨?_, ?_, ?_⟩
    · show fsCount (s.trace ++ [GenCall.factsSubtopics it.name it.description
        s.ancestral_facts (numSubtopics it.depth)]) =
        (s.visited_topics ++ [it.name]).length
      rw [fsCount_append_one, List.length_append, List.length_singleton, hcnt]
    · intro x hx
      rcases List.mem_append.mp hx with h' | h'
      · exact hmono _ x (hvis h')
      · rw [List.mem_singleton.mp h']
        exact hmono _ _ hit
    · intro x hx
      exact hmono _ _ (hqu x (by rw [hq]; exact List.mem_cons_of_mem _ hx))
  · rw [he]
    have hit : it.name ∈ root :: proposedNames svc s.trace :=
      hqu it (by rw [hq]; exact List.mem_cons_self _ _)
    simp only [stateOf]
    refine ⟨?_, ?_, ?_⟩
    · show fsCount (s.trace ++ [GenCall.factsSubtopics it.name it.description
          s.ancestral_facts (numSubtopics it.depth),
          GenCall.article it.name facts s.ancestral_facts]) =
        (s.visited_topics ++ [it.name]).length
      rw [fsCount_append_pair, List.length_append, List.length_singleton, hcnt]
    · intro x hx
      rcases List.mem_append.mp hx with h' | h'
      · exact hmono _ x (hvis h')
      · rw [List.mem_singleton.mp h']
        exact hmono _ _ hit
    · intro x hx
      exact hmono _ _ (hqu x (by rw [hq]; exact List.mem_cons_of_mem _ hx))
  · rw [he]
    have hit : it.name ∈ root :: proposedNames svc s.trace :=
      hqu it (by rw [hq]; exact List.mem_cons_self _ _)
    simp only [stateOf, processedState]
    refine ⟨?_, ?_, ?_⟩
    · show fsCount (s.trace ++ [GenCall.factsSubtopics it.name it.description
          s.ancestral_facts (numSubtopics it.depth),
          GenCall.article it.name facts s.ancestral_facts]) =
        (s.visited_topics ++ [it.name]).length
      rw [fsCount_append_pair, List.length_append, List.length_singleton, hcnt]
    · intro x hx
      rcases List.mem_append.mp hx with h' | h'
      · exact hmono _ x (hvis h')
      · rw [List.mem_singleton.mp h']
        exact hmono _ _ hit
    · intro x hx
      rcases List.mem_append.mp hx with h' | h'
      · exact hmono _ _ (hqu x (by rw [hq]; exact List.mem_cons_of_mem _ h'))
      · by_cases hlt : (it.depth : Int) < max_depth
        · rw [if_pos hlt] at h'
          have hname := enqueueSubs_names
            (s.visited_topics ++ [it.name]) it.depth subs x h'
          refine List.mem_cons_of_mem _ ?_
          rw [proposedNames_append]
          refine List.mem_append_right _ ?_
          show x.name ∈ proposedNames svc
            [GenCall.factsSubtopics it.name it.description
              s.ancestral_facts (numSubtopics it.depth),
             GenCall.article it.name facts s.ancestral_facts]
          simp only [proposedNames, List.map_cons, List.map_nil,
            List.flatten, proposedOf, hf]
          simpa using hname
        · rw [if_neg hlt] at h'
          simp at h'

/-- A whole run preserves the counting invariant. -/
theorem run_counted (svc : GenService) (max_depth : Int) (root : String)
    (fuel : Nat) (s : BuildState) (h : Counted svc root s) :
    Counted svc root (run svc max_depth fuel s).1 := by
  induction fuel generalizing s with
  | zero => rw [run_zero]; exact h
  | succ fuel ih =>
    have hstep := step_counted svc max_depth root s h
    cases he : step svc max_depth s with
    | halt s' =>
      rw [run_succ_halt svc max_depth fuel s s' he]
      rw [he] at hstep
      exact hstep
    | failed s' =>
      rw [run_succ_failed svc max_depth fuel s s' he]
      rw [he] at hstep
      exact hstep
    | next s' =>
      rw [run_succ_next svc max_depth fuel s s' he]
      rw [he] at hstep
      exact ih s' hstep

/-- The initial state satisfies the counting invariant for its own root
name. -/
theorem initState_counted (svc : GenService)
    (topic_name topic_description : String) :
    Counted svc topic_name (initState topic_name topic_description) := by
  refine ⟨rfl, ?_, ?_⟩
  · intro x hx
    simp [initState] at hx
  · intro x hx
    simp only [initState, List.mem_singleton] at hx
    rw [hx]
    exact List.mem_cons_self _ _

/-- A queue holding only items beyond the depth bound drains: every
iteration discards its front item, so the loop ends. -/
theorem run_drains_deep (svc : GenService) (max_depth : Int) :
    ∀ (q : List QItem) (s : BuildState), s.queue = q →
    (∀ it ∈ q, (it.depth : Int) > max_depth) →
    ∃ fuel, (run svc max_depth fuel s).2 ≠ Status.fuelOut := by
  intro q
  induction q with
  | nil =>
    intro s hq _
    refine ⟨1, ?_⟩
    rw [run_succ_halt svc max_depth 0 s s (by unfold step; rw [hq])]
    simp
  | cons it rest ih =>
    intro s hq hdeep
    by_cases hv : it.name ∈ s.visited_topics
    · have hstep : step svc max_depth s = .next { s with queue := rest } := by
        unfold step; rw [hq]; simp [hv]
      obtain ⟨f, hf⟩ := ih { s with queue := rest } rfl
        (fun x hx => hdeep x (List.mem_cons_of_mem _ hx))
      exact ⟨f + 1, by rw [run_succ_next svc max_depth f s _ hstep]; exact hf⟩
    · have hd := hdeep it (List.mem_cons_self _ _)
      have hstep : step svc max_depth s = .next { s with queue := rest } := by
        unfold step; rw [hq]; simp [hv, hd]
      obtain ⟨f, hf⟩ := ih { s with queue := rest } rfl
        (fun x hx => hdeep x (List.mem_cons_of_mem _ hx))
      exact ⟨f + 1, by rw [run_succ_next svc max_depth f s _ hstep]; exact hf⟩

/-- Termination by depth strata: a queue made of a block at depth d
followed by a block at depth d+1 (the only shape the breadth-first loop
produces) always drains, by induction on the remaining depth budget and
the front block. -/
theorem run_terminates_blocks (svc : GenService) (max_depth : Int) :
    ∀ (g : Nat) (a : List QItem), ∀ (b : List QItem) (d : Nat) (s : BuildState),
    s.queue = a ++ b →
    (∀ it ∈ a, it.depth = d) → (∀ it ∈ b, it.depth = d + 1) →
    ((max_depth + 1 - d : Int).toNat ≤ g) →
    ∃ fuel, (run svc max_depth fuel s).2 ≠ Status.fuelOut := by
  intro g
  induction g with
  | zero =>
    intro a b d s hq ha hb hg
    refine run_drains_deep svc max_depth (a ++ b) s hq ?_
    intro it hit
    rcases List.mem_append.mp hit with h | h
    · have := ha it h; omega
    · have := hb it h; omega
  | succ g ihg =>
    intro a
    induction a with
    | nil =>
      intro b d s hq ha hb hg
      exact ihg b [] (d + 1) s (by simpa using hq) hb (by simp) (by omega)
    | cons it a' iha =>
      intro b d s hq ha hb hg
      have hd_it : it.depth = d := ha it (List.mem_cons_self _ _)
      have ha' : ∀ x ∈ a', x.depth = d := fun x hx =>
        ha x (List.mem_cons_of_mem _ hx)
      by_cases hv : it.name ∈ s.visited_topics
      · have hstep : step svc max_depth s = .next { s with queue := a' ++ b } := by
          unfold step; rw [hq, List.cons_append]; simp [hv]
        obtain ⟨f, hf⟩ := iha b d { s with queue := a' ++ b } rfl ha' hb hg
        exact ⟨f + 1, by rw [run_succ_next svc max_depth f s _ hstep]; exact hf⟩
      · by_cases hdd : (it.depth : Int) > max_depth
        · have hstep : step svc max_depth s = .next { s with queue := a' ++ b } := by
            unfold step; rw [hq, List.cons_append]; simp [hv, hdd]
          obtain ⟨f, hf⟩ := iha b d { s with queue := a' ++ b } rfl ha' hb hg
          exact ⟨f + 1, by rw [run_succ_next svc max_depth f s _ hstep]; exact hf⟩
        · cases hf : svc.genFactsSubtopics it.name it.description
              s.ancestral_facts (numSubtopics it.depth) with
          | none =>
            refine ⟨1, ?_⟩
            have hstep : step svc max_depth s = .failed
                { s with
                  queue := a' ++ b
                  visited_topics := s.visited_topics ++ [it.name]
                  trace := s.trace ++ [GenCall.factsSubtopics it.name
                    it.description s.ancestral_facts (numSubtopics it.depth)] } := by
              unfold step; rw [hq, List.cons_append]; simp [hv, hdd, hf]
            rw [run_succ_failed svc max_depth 0 s _ hstep]
            simp
          | some p =>
            obtain ⟨facts, subs⟩ := p
            cases hart : svc.genArticle it.name facts s.ancestral_facts with
            | none =>
              refine ⟨1, ?_⟩
              have hstep : step svc max_depth s = .failed
                  { s with
                    queue := a' ++ b
                    visited_topics := s.visited_topics ++ [it.name]
                    trace := s.trace ++ [GenCall.factsSubtopics it.name
                        it.description s.ancestral_facts (numSubtopics it.depth),
                      GenCall.article it.name facts s.ancestral_facts] } := by
                unfold step; rw [hq, List.cons_append]; simp [hv, hdd, hf, hart]
              rw [run_succ_failed svc max_depth 0 s _ hstep]
              simp
            | some art =>
              have hstep : step svc max_depth s =
                  .next (processedState max_depth s it (a' ++ b) facts subs art) := by
                unfold step; rw [hq, List.cons_append]
                simp [hv, hdd, hf, hart, processedState]
              set ch := if (it.depth : Int) < max_depth then
                enqueueSubs (s.visited_topics ++ [it.name]) it.depth subs
                else [] with hch
              have hchd : ∀ x ∈ ch, x.depth = d + 1 := by
                intro x hx
                rw [hch] at hx
                by_cases hlt : (it.depth : Int) < max_depth
                · rw [if_pos hlt] at hx
                  rw [enqueueSubs_depth _ _ _ x hx, hd_it]
                · rw [if_neg hlt] at hx
                  simp at hx
              have hq' : (processedState max_depth s it (a' ++ b)
                  facts subs art).queue = a' ++ (b ++ ch) := by
                simp [processedState, hch, List.append_assoc]
              obtain ⟨f, hf2⟩ := iha (b ++ ch) d
                (processedState max_depth s it (a' ++ b) facts subs art) hq' ha'
                (fun x hx => by
                  rcases List.mem_append.mp hx with h' | h'
                  · exact hb x h'
                  · exact hchd x h') hg
              exact ⟨f + 1, by rw [run_succ_next svc max_depth f s _ hstep]; exact hf2⟩

/-- With a service whose calls all succeed, no iteration fails. -/
theorem step_not_failed (svc : GenService) (hT : SvcTotal svc)
    (max_depth : Int) (s : BuildState) :
    ∀ s', step svc max_depth s ≠ .failed s' := by
  intro s' hcon
  rcases step_cases svc max_depth s with
    ⟨hq, he⟩ | ⟨it, rest, hq, hv, he⟩ | ⟨it, rest, hq, hv, hd, he⟩ |
    ⟨it, rest, hq, hv, hd, hf, he⟩ |
    ⟨it, rest, facts, subs, hq, hv, hd, hf, ha, he⟩ |
    ⟨it, rest, facts, subs, art, hq, hv, hd, hf, ha, he⟩
  · rw [he] at hcon; cases hcon
  · rw [he] at hcon; cases hcon
  · rw [he] at hcon; cases hcon
  · have := hT.1 it.name it.description s.ancestral_facts (numSubtopics it.depth)
    rw [hf] at this; cases this
  · have := hT.2 it.name facts s.ancestral_facts
    rw [ha] at this; cases this
  · rw [he] at hcon; cases hcon

/-- With a service whose calls all succeed, no run fails. -/
theorem run_not_failed (svc : GenService) (hT : SvcTotal svc)
    (max_depth : Int) (fuel : Nat) (s : BuildState) :
    (run svc max_depth fuel s).2 ≠ Status.failed := by
  induction fuel generalizing s with
  | zero => rw [run_zero]; simp
  | succ fuel ih =>
    cases he : step svc max_depth s with
    | halt s' => rw [run_succ_halt svc max_depth fuel s s' he]; simp
    | failed s' => exact absurd he (step_not_failed svc hT max_depth s s')
    | next s' => rw [run_succ_next svc max_depth fuel s s' he]; exact ih s'

end WorldCorpusBuilder

/-- The two dict-insert embeddings agree. -/
theorem dictInsert_eq :
    BFSWorldCorpusBuilder.dictInsert = WorldCorpusBuilder.dictInsert := by
  funext m k v
  induction m with
  | nil => rfl
  | cons p rest ih =>
    obtain ⟨k', v'⟩ := p
    simp only [BFSWorldCorpusBuilder.dictInsert, WorldCorpusBuilder.dictInsert, ih]

/-- The two subtopic-queueing embeddings agree. -/
theorem enqueueSubs_eq :
    BFSWorldCorpusBuilder.enqueueSubs = WorldCorpusBuilder.enqueueSubs := by
  funext visited depth subs
  induction subs with
  | nil => rfl
  | cons st rest ih =>
    simp only [BFSWorldCorpusBuilder.enqueueSubs, WorldCorpusBuilder.enqueueSubs, ih]

/-- The two num_subtopics policies agree. -/
theorem numSubtopics_eq :
    BFSWorldCorpusBuilder.numSubtopics = WorldCorpusBuilder.numSubtopics := rfl

/-- The two loop bodies agree. -/
theorem step_eq : BFSWorldCorpusBuilder.step = WorldCorpusBuilder.step := by
  funext svc md s
  unfold BFSWorldCorpusBuilder.step WorldCorpusBuilder.step
  rw [dictInsert_eq, enqueueSubs_eq, numSubtopics_eq]

/-- The two loops agree at every fuel. -/
theorem run_eq : BFSWorldCorpusBuilder.run = WorldCorpusBuilder.run := by
  funext svc md fuel
  induction fuel with
  | zero => funext s; rfl
  | succ fuel ih =>
    funext s
    simp only [BFSWorldCorpusBuilder.run, WorldCorpusBuilder.run, step_eq]
    cases WorldCorpusBuilder.step svc md s with
    | halt s' => rfl
    | failed s' => rfl
    | next s' => exact congrFun ih s'

/-- The two initial states agree. -/
theorem initState_eq :
    BFSWorldCorpusBuilder.initState = WorldCorpusBuilder.initState := rfl

/-- Claim C1: in every run of build_corpus in which all generation calls
succeed and the queue drains, the ancestral-facts argument passed to the
facts-and-subtopics call and to the article call of the Nth processed
topic both equal the concatenation, in processing order, of the facts
lists of the topics processed before it (corpus insertion order is
processing order); the sequence therefore grows monotonically and gains
each topic's facts exactly once, after that topic's article call. -/
theorem c1_ancestral_concatenation (svc : GenService) (max_depth : Int)
    (topic_name topic_description : String) (fuel : Nat)
    (hT : SvcTotal svc)
    (hdone : (WorldCorpusBuilder.build_corpus svc topic_name topic_description
      max_depth fuel).2 = Status.done) :
    WorldCorpusBuilder.fsCallAncs
        (WorldCorpusBuilder.build_corpus svc topic_name topic_description
          max_depth fuel).1.trace =
      WorldCorpusBuilder.ancExpected
        (WorldCorpusBuilder.build_corpus svc topic_name topic_description
          max_depth fuel).1.generated_corpus ∧
    WorldCorpusBuilder.articleCallAncs
        (WorldCorpusBuilder.build_corpus svc topic_name topic_description
          max_depth fuel).1.trace =
      WorldCorpusBuilder.ancExpected
        (WorldCorpusBuilder.build_corpus svc topic_name topic_description
          max_depth fuel).1.generated_corpus := by
  unfold WorldCorpusBuilder.build_corpus at hdone ⊢
  have hA := WorldCorpusBuilder.run_preserves_aligned svc max_depth fuel
    (WorldCorpusBuilder.initState topic_name topic_description)
    (WorldCorpusBuilder.initState_aligned topic_name topic_description) hdone
  obtain ⟨htc, hanc, hsub⟩ := hA
  constructor
  · rw [WorldCorpusBuilder.tc_fsCallAncs _ _ _ htc,
      WorldCorpusBuilder.snaps_eq_ancExpected]
  · rw [WorldCorpusBuilder.tc_articleCallAncs _ _ _ htc,
      WorldCorpusBuilder.snaps_eq_ancExpected]

/-- Witness for C1: the stub run with root A at max_depth 1 drains its
queue, and both call sequences see the ancestral snapshots predicted by
the concatenation formula. -/
theorem c1_witness :
    WorldCorpusBuilder.fsCallAncs
        (WorldCorpusBuilder.build_corpus svcDemo "A" "dA" 1 10).1.trace =
      WorldCorpusBuilder.ancExpected
        (WorldCorpusBuilder.build_corpus svcDemo "A" "dA" 1 10).1.generated_corpus ∧
    WorldCorpusBuilder.articleCallAncs
        (WorldCorpusBuilder.build_corpus svcDemo "A" "dA" 1 10).1.trace =
      WorldCorpusBuilder.ancExpected
        (WorldCorpusBuilder.build_corpus svcDemo "A" "dA" 1 10).1.generated_corpus :=
  c1_ancestral_concatenation svcDemo 1 "A" "dA" 10
    ⟨fun _ _ _ _ => rfl, fun _ _ _ => rfl⟩ (by decide)

/-- Claim C2: in every run of build_corpus in which all generation calls
succeed and the queue drains, the trace strictly alternates
facts-and-subtopics and article calls, each article call names the same
topic and receives exactly the same ancestral-facts sequence as the
facts-and-subtopics call before it, and that shared snapshot is the
concatenation of the facts of strictly earlier topics only: the facts
produced by the first call for a topic are not part of the ancestral
context of that topic's own article, because the global sequence is
extended only after both calls. -/
theorem c2_article_same_snapshot (svc : GenService) (max_depth : Int)
    (topic_name topic_description : String) (fuel : Nat)
    (hT : SvcTotal svc)
    (hdone : (WorldCorpusBuilder.build_corpus svc topic_name topic_description
      max_depth fuel).2 = Status.done) :
    WorldCorpusBuilder.PairedSameSnapshot
      (WorldCorpusBuilder.build_corpus svc topic_name topic_description
        max_depth fuel).1.trace ∧
    WorldCorpusBuilder.articleCallAncs
        (WorldCorpusBuilder.build_corpus svc topic_name topic_description
          max_depth fuel).1.trace =
      WorldCorpusBuilder.fsCallAncs
        (WorldCorpusBuilder.build_corpus svc topic_name topic_description
          max_depth fuel).1.trace ∧
    WorldCorpusBuilder.articleCallAncs
        (WorldCorpusBuilder.build_corpus svc topic_name topic_description
          max_depth fuel).1.trace =
      WorldCorpusBuilder.ancExpected
        (WorldCorpusBuilder.build_corpus svc topic_name topic_description
          max_depth fuel).1.generated_corpus := by
  unfold WorldCorpusBuilder.build_corpus at hdone ⊢
  have hA := WorldCorpusBuilder.run_preserves_aligned svc max_depth fuel
    (WorldCorpusBuilder.initState topic_name topic_description)
    (WorldCorpusBuilder.initState_aligned topic_name topic_description) hdone
  obtain ⟨htc, hanc, hsub⟩ := hA
  refine ⟨WorldCorpusBuilder.tc_paired _ _ _ htc, ?_, ?_⟩
  · rw [WorldCorpusBuilder.tc_articleCallAncs _ _ _ htc,
      WorldCorpusBuilder.tc_fsCallAncs _ _ _ htc]
  · rw [WorldCorpusBuilder.tc_articleCallAncs _ _ _ htc,
      WorldCorpusBuilder.snaps_eq_ancExpected]

/-- Witness for C2: on the stub run with root A at max_depth 1, the trace
pairs up and the article calls see exactly the facts of strictly earlier
topics. -/
theorem c2_witness :
    WorldCorpusBuilder.PairedSameSnapshot
      (WorldCorpusBuilder.build_corpus svcDemo "A" "dA" 1 10).1.trace ∧
    WorldCorpusBuilder.articleCallAncs
        (WorldCorpusBuilder.build_corpus svcDemo "A" "dA" 1 10).1.trace =
      WorldCorpusBuilder.fsCallAncs
        (WorldCorpusBuilder.build_corpus svcDemo "A" "dA" 1 10).1.trace ∧
    WorldCorpusBuilder.articleCallAncs
        (WorldCorpusBuilder.build_corpus svcDemo "A" "dA" 1 10).1.trace =
      WorldCorpusBuilder.ancExpected
        (WorldCorpusBuilder.build_corpus svcDemo "A" "dA" 1 10).1.generated_corpus :=
  c2_article_same_snapshot svcDemo 1 "A" "dA" 10
    ⟨fun _ _ _ _ => rfl, fun _ _ _ => rfl⟩ (by decide)

/-- Counterexample to claim C3: neither the constructor nor build_corpus
validates its inputs. With the empty string as root topic name and
max_depth 0, the run reaches the generation service (the trace holds a
facts-and-subtopics call and an article call, both for the empty name),
finishes with status done rather than an error, and stores a corpus entry
under the empty key: nothing is rejected before a generation call. -/
theorem c3_counterexample :
    (WorldCorpusBuilder.build_corpus svcDemo "" "dR" 0 5).1.trace =
      [GenCall.factsSubtopics "" "dR" [] (WorldCorpusBuilder.numSubtopics 0),
       GenCall.article "" ["g"] []] ∧
    (WorldCorpusBuilder.build_corpus svcDemo "" "dR" 0 5).2 = Status.done ∧
    WorldCorpusBuilder.corpusKeys
      (WorldCorpusBuilder.build_corpus svcDemo "" "dR" 0 5).1.generated_corpus =
      [""] := by
  refine ⟨by decide, by decide, by decide⟩

/-- Claim C3 as amended: no input validation happens at construction or
at entry to build_corpus. With a negative max_depth the run returns
normally: the root is dequeued, dropped by the depth bound, and the build
ends with status done, an empty corpus, an empty trace and no error.
With an empty root name and a non-negative max_depth the empty-named root
is processed like any other topic: the run's first generation call is the
facts-and-subtopics call for the empty name. -/
theorem c3_amended_no_validation :
    (∀ (svc : GenService) (tn td : String) (max_depth : Int) (fuel : Nat),
      max_depth < 0 → 2 ≤ fuel →
      WorldCorpusBuilder.build_corpus svc tn td max_depth fuel =
        (⟨[], [], [], [], []⟩, Status.done)) ∧
    (∀ (svc : GenService) (td : String) (max_depth : Int) (fuel : Nat),
      0 ≤ max_depth → 1 ≤ fuel →
      ∃ rest, (WorldCorpusBuilder.build_corpus svc "" td max_depth fuel).1.trace =
        GenCall.factsSubtopics "" td [] (WorldCorpusBuilder.numSubtopics 0) :: rest) := by
  constructor
  · intro svc tn td max_depth fuel hneg hfuel
    obtain ⟨f, rfl⟩ : ∃ f, fuel = f + 2 := ⟨fuel - 2, by omega⟩
    have hstep : WorldCorpusBuilder.step svc max_depth
        (WorldCorpusBuilder.initState tn td) = .next ⟨[], [], [], [], []⟩ := by
      unfold WorldCorpusBuilder.step
      simp [WorldCorpusBuilder.initState]
      omega
    unfold WorldCorpusBuilder.build_corpus
    have e1 : f + 2 = (f + 1) + 1 := rfl
    rw [e1, WorldCorpusBuilder.run_succ_next svc max_depth (f + 1) _ _ hstep,
      WorldCorpusBuilder.run_succ_halt svc max_depth f _ _
        (by unfold WorldCorpusBuilder.step; rfl)]
  · intro svc td max_depth fuel hpos hfuel
    obtain ⟨f, rfl⟩ : ∃ f, fuel = f + 1 := ⟨fuel - 1, by omega⟩
    have hv : ("" : String) ∉
        (WorldCorpusBuilder.initState "" td).visited_topics := by
      simp [WorldCorpusBuilder.initState]
    have hd : ¬ ((0 : Nat) : Int) > max_depth := by omega
    unfold WorldCorpusBuilder.build_corpus
    cases hf : svc.genFactsSubtopics "" td [] (WorldCorpusBuilder.numSubtopics 0) with
    | none =>
      have hstep : WorldCorpusBuilder.step svc max_depth
          (WorldCorpusBuilder.initState "" td) = .failed
            ⟨[], [""], [], [],
              [GenCall.factsSubtopics "" td []
                (WorldCorpusBuilder.numSubtopics 0)]⟩ := by
        unfold WorldCorpusBuilder.step
        simp [WorldCorpusBuilder.initState, hf, hd]
        omega
      rw [WorldCorpusBuilder.run_succ_failed svc max_depth f _ _ hstep]
      exact ⟨[], rfl⟩
    | some p =>
      obtain ⟨facts, subs⟩ := p
      cases ha : svc.genArticle "" facts [] with
      | none =>
        have hstep : WorldCorpusBuilder.step svc max_depth
            (WorldCorpusBuilder.initState "" td) = .failed
              ⟨[], [""], [], [],
                [GenCall.factsSubtopics "" td []
                  (WorldCorpusBuilder.numSubtopics 0),
                 GenCall.article "" facts []]⟩ := by
          unfold WorldCorpusBuilder.step
          simp [WorldCorpusBuilder.initState, hf, ha, hd]
          omega
        rw [WorldCorpusBuilder.run_succ_failed svc max_depth f _ _ hstep]
        exact ⟨[GenCall.article "" facts []], rfl⟩
      | some art =>
        have hstep : WorldCorpusBuilder.step svc max_depth
            (WorldCorpusBuilder.initState "" td) = .next
              (WorldCorpusBuilder.processedState max_depth
                (WorldCorpusBuilder.initState "" td) ⟨"", td, 0⟩ [] facts subs art) := by
          have := WorldCorpusBuilder.step_cases svc max_depth
            (WorldCorpusBuilder.initState "" td)
          rcases this with
            ⟨hq, he⟩ | ⟨it, rest, hq, hv', he⟩ | ⟨it, rest, hq, hv', hd', he⟩ |
            ⟨it, rest, hq, hv', hd', hf', he⟩ |
            ⟨it, rest, facts', subs', hq, hv', hd', hf', ha', he⟩ |
            ⟨it, rest, facts', subs', art', hq, hv', hd', hf', ha', he⟩
          · simp [WorldCorpusBuilder.initState] at hq
          · simp [WorldCorpusBuilder.initState] at hq
            obtain ⟨hit, -⟩ := hq
            rw [← hit] at hv'
            simp [WorldCorpusBuilder.initState] at hv'
          · simp [WorldCorpusBuilder.initState] at hq
            obtain ⟨hit, -⟩ := hq
            subst hit
            simp [WorldCorpusBuilder.initState] at hd'
            omega
          · simp [WorldCorpusBuilder.initState] at hq
            obtain ⟨hit, hrest⟩ := hq
            subst hit; subst hrest
            rw [show (WorldCorpusBuilder.initState "" td).ancestral_facts = []
              from rfl] at hf'
            rw [hf] at hf'
            cases hf'
          · simp [WorldCorpusBuilder.initState] at hq
            obtain ⟨hit, hrest⟩ := hq
            subst hit; subst hrest
            rw [show (WorldCorpusBuilder.initState "" td).ancestral_facts = []
              from rfl] at hf' ha'
            rw [hf] at hf'
            injection hf' with hf''
            injection hf'' with h1 h2
            subst h1; subst h2
            rw [ha] at ha'
            cases ha'
          · simp [WorldCorpusBuilder.initState] at hq
            obtain ⟨hit, hrest⟩ := hq
            subst hit; subst hrest
            rw [show (WorldCorpusBuilder.initState "" td).ancestral_facts = []
              from rfl] at hf' ha'
            rw [hf] at hf'
            injection hf' with hf''
            injection hf'' with h1 h2
            subst h1; subst h2
            rw [ha] at ha'
            injection ha' with h3
            subst h3
            exact he
        rw [WorldCorpusBuilder.run_succ_next svc max_depth f _ _ hstep]
        have hwf : WorldCorpusBuilder.WF
            (WorldCorpusBuilder.processedState max_depth
              (WorldCorpusBuilder.initState "" td) ⟨"", td, 0⟩ [] facts subs art) := by
          have hp := WorldCorpusBuilder.step_preserves svc max_depth
            (WorldCorpusBuilder.initState "" td)
            (WorldCorpusBuilder.initState_wf "" td)
          rw [hstep] at hp
          exact hp.1
        obtain ⟨-, -, ⟨u, hu⟩, -⟩ := WorldCorpusBuilder.run_preserves svc max_depth f
          (WorldCorpusBuilder.processedState max_depth
            (WorldCorpusBuilder.initState "" td) ⟨"", td, 0⟩ [] facts subs art) hwf
        rw [hu]
        refine ⟨GenCall.article "" facts [] :: u, ?_⟩
        simp [WorldCorpusBuilder.processedState, WorldCorpusBuilder.initState]

/-- Witness for the amended C3: with the stub service, a negative
max_depth returns the empty result with no calls, and the empty root name
leads to a first generation call carrying the empty name. -/
theorem c3_amended_witness :
    WorldCorpusBuilder.build_corpus svcDemo "A" "dA" (-1) 2 =
      (⟨[], [], [], [], []⟩, Status.done) ∧
    (∃ rest, (WorldCorpusBuilder.build_corpus svcDemo "" "dR" 0 5).1.trace =
      GenCall.factsSubtopics "" "dR" [] (WorldCorpusBuilder.numSubtopics 0) :: rest) :=
  ⟨c3_amended_no_validation.1 svcDemo "A" "dA" (-1) 2 (by omega) (by omega),
   c3_amended_no_validation.2 svcDemo "dR" 0 5 (by omega) (by omega)⟩

/-- Claim C4: a topic name is processed at most once. A dequeued item
whose name is already visited is discarded by the very next equation with
no generation call and no change to the corpus, visited set, ancestral
facts or trace; the keys of the corpus of any run from a fresh builder
are pairwise distinct, so a name proposed by several parents appears at
most once; and the corpus only ever grows by appending, so the entry
created when a name is first dequeued — including its stored depth —
persists unchanged for the rest of the run. -/
theorem c4_duplicate_suppression :
    (∀ (svc : GenService) (max_depth : Int) (s : BuildState) (it : QItem)
      (rest : List QItem), s.queue = it :: rest →
      it.name ∈ s.visited_topics →
      WorldCorpusBuilder.step svc max_depth s = .next { s with queue := rest }) ∧
    (∀ (svc : GenService) (max_depth : Int) (tn td : String) (fuel : Nat),
      (WorldCorpusBuilder.corpusKeys
        (WorldCorpusBuilder.build_corpus svc tn td max_depth
          fuel).1.generated_corpus).Nodup) ∧
    (∀ (svc : GenService) (max_depth : Int) (tn td : String) (f₁ f₂ : Nat),
      f₁ ≤ f₂ →
      ∃ t, (WorldCorpusBuilder.build_corpus svc tn td max_depth
          f₂).1.generated_corpus =
        (WorldCorpusBuilder.build_corpus svc tn td max_depth
          f₁).1.generated_corpus ++ t) := by
  refine ⟨?_, ?_, ?_⟩
  · intro svc max_depth s it rest hq hv
    unfold WorldCorpusBuilder.step
    rw [hq]
    simp [hv]
  · intro svc max_depth tn td fuel
    exact (WorldCorpusBuilder.run_preserves svc max_depth fuel _
      (WorldCorpusBuilder.initState_wf tn td)).1.2.2
  · intro svc max_depth tn td f₁ f₂ hle
    obtain ⟨k, rfl⟩ : ∃ k, f₂ = f₁ + k := ⟨f₂ - f₁, by omega⟩
    unfold WorldCorpusBuilder.build_corpus
    rw [WorldCorpusBuilder.run_add]
    by_cases hs : (WorldCorpusBuilder.run svc max_depth f₁
        (WorldCorpusBuilder.initState tn td)).2 = Status.fuelOut
    · rw [if_pos hs]
      have hwf := (WorldCorpusBuilder.run_preserves svc max_depth f₁
        (WorldCorpusBuilder.initState tn td)
        (WorldCorpusBuilder.initState_wf tn td)).1
      obtain ⟨-, ⟨t, ht⟩, -, -⟩ :=
        WorldCorpusBuilder.run_preserves svc max_depth k _ hwf
      exact ⟨t, ht⟩
    · rw [if_neg hs]
      exact ⟨[], by simp⟩

/-- Witness for C4: with topic C proposed both by A and by B, the run
stores C once, at the depth of its first dequeue (depth 1), the later
duplicate item is dropped by the visited rule with no state change, and
longer runs only extend the corpus. -/
theorem c4_witness :
    WorldCorpusBuilder.step svcDup 2
        ⟨[⟨"C", "dC2", 2⟩], ["A", "B", "C"], [], [], []⟩ =
      .next ⟨[], ["A", "B", "C"], [], [], []⟩ ∧
    (WorldCorpusBuilder.corpusKeys
      (WorldCorpusBuilder.build_corpus svcDup "A" "dA" 2
        10).1.generated_corpus).Nodup ∧
    (∃ t, (WorldCorpusBuilder.build_corpus svcDup "A" "dA" 2
        10).1.generated_corpus =
      (WorldCorpusBuilder.build_corpus svcDup "A" "dA" 2
        5).1.generated_corpus ++ t) ∧
    (WorldCorpusBuilder.build_corpus svcDup "A" "dA" 2
        10).1.generated_corpus.map (fun p => (p.1, p.2.depth)) =
      [("A", 0), ("B", 1), ("C", 1)] :=
  ⟨c4_duplicate_suppression.1 svcDup 2
      ⟨[⟨"C", "dC2", 2⟩], ["A", "B", "C"], [], [], []⟩ ⟨"C", "dC2", 2⟩ []
      rfl (by decide),
   c4_duplicate_suppression.2.1 svcDup 2 "A" "dA" 10,
   c4_duplicate_suppression.2.2 svcDup 2 "A" "dA" 5 10 (by omega),
   by decide⟩

/-- Claim C5: the depth bound is enforced at dequeue time, not at enqueue
time. First, any dequeued item whose depth exceeds max_depth (and whose
name is not yet visited, so the visited rule does not fire first) is
discarded with no generation call and no change to the corpus, visited
set, ancestral facts or trace. Second, an item whose depth exceeds
max_depth can be present in the queue during a run: with max_depth -1 the
root item sits in the queue at depth 0 > -1, and the run drops it when it
is reached, ending with nothing processed and no call made. -/
theorem c5_depth_checked_at_dequeue :
    (∀ (svc : GenService) (max_depth : Int) (s : BuildState) (it : QItem)
      (rest : List QItem), s.queue = it :: rest →
      it.name ∉ s.visited_topics → (it.depth : Int) > max_depth →
      WorldCorpusBuilder.step svc max_depth s = .next { s with queue := rest }) ∧
    ((0 : Int) > (-1 : Int) ∧
      (WorldCorpusBuilder.initState "A" "dA").queue = [⟨"A", "dA", 0⟩] ∧
      WorldCorpusBuilder.build_corpus svcDemo "A" "dA" (-1) 2 =
        (⟨[], [], [], [], []⟩, Status.done)) := by
  constructor
  · intro svc max_depth s it rest hq hv hd
    unfold WorldCorpusBuilder.step
    rw [hq]
    simp [hv, hd]
  · exact ⟨by decide, rfl, by decide⟩

/-- Witness for C5: the depth-skip equation applied to a concrete state
holding a depth-2 item with max_depth 1. -/
theorem c5_witness :
    WorldCorpusBuilder.step svcDemo 1
        ⟨[⟨"D", "dD", 2⟩], ["A"], [], ["f1"], []⟩ =
      .next ⟨[], ["A"], [], ["f1"], []⟩ :=
  c5_depth_checked_at_dequeue.1 svcDemo 1
    ⟨[⟨"D", "dD", 2⟩], ["A"], [], ["f1"], []⟩ ⟨"D", "dD", 2⟩ [] rfl
    (by decide) (by decide)

/-- Claim C6: with max_depth 0 and a generation service whose calls all
succeed, build_corpus halts with exactly one corpus entry, keyed by the
root topic name with stored depth 0; the single processing step leaves
the queue empty (no subtopic is ever enqueued during the run). -/
theorem c6_max_depth_zero (svc : GenService)
    (topic_name topic_description : String) (fuel : Nat)
    (hT : SvcTotal svc) (hfuel : 2 ≤ fuel) :
    (WorldCorpusBuilder.build_corpus svc topic_name topic_description 0 fuel).2 =
      Status.done ∧
    WorldCorpusBuilder.corpusKeys
      (WorldCorpusBuilder.build_corpus svc topic_name topic_description 0
        fuel).1.generated_corpus = [topic_name] ∧
    (∀ p ∈ (WorldCorpusBuilder.build_corpus svc topic_name topic_description 0
      fuel).1.generated_corpus, p.2.depth = 0) ∧
    (WorldCorpusBuilder.build_corpus svc topic_name topic_description 0
      fuel).1.queue = [] ∧
    (∀ s', WorldCorpusBuilder.step svc 0
        (WorldCorpusBuilder.initState topic_name topic_description) =
        StepRes.next s' → s'.queue = []) := by
  obtain ⟨f, rfl⟩ : ∃ f, fuel = f + 2 := ⟨fuel - 2, by omega⟩
  obtain ⟨hfs, hart⟩ := hT
  obtain ⟨p, hf⟩ := Option.isSome_iff_exists.mp
    (hfs topic_name topic_description [] (WorldCorpusBuilder.numSubtopics 0))
  obtain ⟨facts, subs⟩ := p
  obtain ⟨art, ha⟩ := Option.isSome_iff_exists.mp (hart topic_name facts [])
  have hstep : WorldCorpusBuilder.step svc 0
      (WorldCorpusBuilder.initState topic_name topic_description) =
      .next ⟨[], [topic_name],
        [(topic_name, ⟨art, facts, subs, 0⟩)], facts,
        [GenCall.factsSubtopics topic_name topic_description []
          (WorldCorpusBuilder.numSubtopics 0),
         GenCall.article topic_name facts []]⟩ := by
    unfold WorldCorpusBuilder.step
    simp [WorldCorpusBuilder.initState, hf, ha, WorldCorpusBuilder.dictInsert]
  unfold WorldCorpusBuilder.build_corpus
  have e1 : f + 2 = (f + 1) + 1 := rfl
  rw [e1, WorldCorpusBuilder.run_succ_next svc 0 (f + 1) _ _ hstep,
    WorldCorpusBuilder.run_succ_halt svc 0 f _ _
      (by unfold WorldCorpusBuilder.step; rfl)]
  refine ⟨rfl, rfl, ?_, rfl, ?_⟩
  · intro p hp
    simp at hp
    rw [hp]
  · intro s' hs'
    rw [hstep] at hs'
    cases hs'
    rfl

/-- Witness for C6: the stub run with max_depth 0 stores only the root
at depth 0 and never enqueues anything. -/
theorem c6_witness :
    (WorldCorpusBuilder.build_corpus svcDemo "A" "dA" 0 2).2 = Status.done ∧
    WorldCorpusBuilder.corpusKeys
      (WorldCorpusBuilder.build_corpus svcDemo "A" "dA" 0
        2).1.generated_corpus = ["A"] ∧
    (∀ p ∈ (WorldCorpusBuilder.build_corpus svcDemo "A" "dA" 0
      2).1.generated_corpus, p.2.depth = 0) ∧
    (WorldCorpusBuilder.build_corpus svcDemo "A" "dA" 0 2).1.queue = [] ∧
    (∀ s', WorldCorpusBuilder.step svcDemo 0
        (WorldCorpusBuilder.initState "A" "dA") =
        StepRes.next s' → s'.queue = []) :=
  c6_max_depth_zero svcDemo "A" "dA" 2
    ⟨fun _ _ _ _ => rfl, fun _ _ _ => rfl⟩ (by omega)

/-- Claim C8: a failure of either generation call for a topic aborts
processing of that topic with no internal retry and no substituted
default: the run stops at once with status failed, the failing topic gets
no corpus entry, and the corpus, with every entry committed for
previously completed topics, is returned exactly as it stood before the
failing topic (only the queue, the visited set and the call trace moved). -/
theorem c8_generation_failure (svc : GenService) (max_depth : Int)
    (s : BuildState) (it : QItem) (rest : List QItem) (fuel : Nat)
    (hq : s.queue = it :: rest) (hv : it.name ∉ s.visited_topics)
    (hd : ¬ (it.depth : Int) > max_depth) :
    (svc.genFactsSubtopics it.name it.description s.ancestral_facts
        (WorldCorpusBuilder.numSubtopics it.depth) = none →
      WorldCorpusBuilder.run svc max_depth (fuel + 1) s =
        (⟨rest, s.visited_topics ++ [it.name], s.generated_corpus,
          s.ancestral_facts,
          s.trace ++ [GenCall.factsSubtopics it.name it.description
            s.ancestral_facts (WorldCorpusBuilder.numSubtopics it.depth)]⟩,
         Status.failed)) ∧
    (∀ facts subs,
      svc.genFactsSubtopics it.name it.description s.ancestral_facts
        (WorldCorpusBuilder.numSubtopics it.depth) = some (facts, subs) →
      svc.genArticle it.name facts s.ancestral_facts = none →
      WorldCorpusBuilder.run svc max_depth (fuel + 1) s =
        (⟨rest, s.visited_topics ++ [it.name], s.generated_corpus,
          s.ancestral_facts,
          s.trace ++ [GenCall.factsSubtopics it.name it.description
            s.ancestral_facts (WorldCorpusBuilder.numSubtopics it.depth),
            GenCall.article it.name facts s.ancestral_facts]⟩,
         Status.failed)) := by
  constructor
  · intro hf
    refine WorldCorpusBuilder.run_succ_failed svc max_depth fuel s _ ?_
    unfold WorldCorpusBuilder.step
    rw [hq]
    simp [hv, hd, hf]
  · intro facts subs hf ha
    refine WorldCorpusBuilder.run_succ_failed svc max_depth fuel s _ ?_
    unfold WorldCorpusBuilder.step
    rw [hq]
    simp [hv, hd, hf, ha]

/-- Witness for C8: with the service that raises on B's
facts-and-subtopics call, the run from the state reached after processing
A stops at once with status failed, keeping A's committed entry
unchanged and giving B none; likewise for an article-call failure. -/
theorem c8_witness :
    WorldCorpusBuilder.run svcFailB 1 (0 + 1)
        ⟨[⟨"B", "dB", 1⟩, ⟨"C", "dC", 1⟩], ["A"],
          [("A", ⟨"art-A", ["f1", "f2"], [⟨"B", "dB"⟩, ⟨"C", "dC"⟩], 0⟩)],
          ["f1", "f2"],
          [GenCall.factsSubtopics "A" "dA" [] 8,
           GenCall.article "A" ["f1", "f2"] []]⟩ =
      (⟨[⟨"C", "dC", 1⟩], ["A"] ++ ["B"],
        [("A", ⟨"art-A", ["f1", "f2"], [⟨"B", "dB"⟩, ⟨"C", "dC"⟩], 0⟩)],
        ["f1", "f2"],
        [GenCall.factsSubtopics "A" "dA" [] 8,
         GenCall.article "A" ["f1", "f2"] []] ++
          [GenCall.factsSubtopics "B" "dB" ["f1", "f2"]
            (WorldCorpusBuilder.numSubtopics 1)]⟩,
       Status.failed) ∧
    WorldCorpusBuilder.run svcFailArtB 1 (0 + 1)
        ⟨[⟨"B", "dB", 1⟩, ⟨"C", "dC", 1⟩], ["A"],
          [("A", ⟨"art-A", ["f1", "f2"], [⟨"B", "dB"⟩, ⟨"C", "dC"⟩], 0⟩)],
          ["f1", "f2"],
          [GenCall.factsSubtopics "A" "dA" [] 8,
           GenCall.article "A" ["f1", "f2"] []]⟩ =
      (⟨[⟨"C", "dC", 1⟩], ["A"] ++ ["B"],
        [("A", ⟨"art-A", ["f1", "f2"], [⟨"B", "dB"⟩, ⟨"C", "dC"⟩], 0⟩)],
        ["f1", "f2"],
        [GenCall.factsSubtopics "A" "dA" [] 8,
         GenCall.article "A" ["f1", "f2"] []] ++
          [GenCall.factsSubtopics "B" "dB" ["f1", "f2"]
            (WorldCorpusBuilder.numSubtopics 1),
           GenCall.article "B" ["f3"] ["f1", "f2"]]⟩,
       Status.failed) :=
  ⟨(c8_generation_failure svcFailB 1
      ⟨[⟨"B", "dB", 1⟩, ⟨"C", "dC", 1⟩], ["A"],
        [("A", ⟨"art-A", ["f1", "f2"], [⟨"B", "dB"⟩, ⟨"C", "dC"⟩], 0⟩)],
        ["f1", "f2"],
        [GenCall.factsSubtopics "A" "dA" [] 8,
         GenCall.article "A" ["f1", "f2"] []]⟩
      ⟨"B", "dB", 1⟩ [⟨"C", "dC", 1⟩] 0 rfl (by decide) (by decide)).1
    (by decide),
   (c8_generation_failure svcFailArtB 1
      ⟨[⟨"B", "dB", 1⟩, ⟨"C", "dC", 1⟩], ["A"],
        [("A", ⟨"art-A", ["f1", "f2"], [⟨"B", "dB"⟩, ⟨"C", "dC"⟩], 0⟩)],
        ["f1", "f2"],
        [GenCall.factsSubtopics "A" "dA" [] 8,
         GenCall.article "A" ["f1", "f2"] []]⟩
      ⟨"B", "dB", 1⟩ [⟨"C", "dC", 1⟩] 0 rfl (by decide) (by decide)).2
    ["f3"] [] (by decide) (by decide)⟩

/-- Claim C9: when a processed topic has depth < max_depth, the enqueued
items are exactly the proposed subtopics, in proposal order, whose name
is nonempty and not in the visited set at enqueue time (the set already
holding the current topic); an empty-named subtopic is silently dropped
with no error, and the test consults only the visited set — the queue's
current contents play no part, as the enqueue computation never reads the
queue and its result is appended behind the untouched remainder. -/
theorem c9_enqueue_condition :
    (∀ (visited : List String) (depth : Nat) (subs : List SubtopicDetail),
      WorldCorpusBuilder.enqueueSubs visited depth subs =
        (subs.filter (fun st => decide (st.name ≠ "" ∧ st.name ∉ visited))).map
          (fun st => ⟨st.name, st.description, depth + 1⟩)) ∧
    (∀ (visited : List String) (depth : Nat) (st : SubtopicDetail)
      (subs : List SubtopicDetail), st.name ≠ "" → st.name ∉ visited →
      WorldCorpusBuilder.enqueueSubs visited depth (st :: subs) =
        ⟨st.name, st.description, depth + 1⟩ ::
          WorldCorpusBuilder.enqueueSubs visited depth subs) ∧
    (∀ (visited : List String) (depth : Nat) (ds : String)
      (subs : List SubtopicDetail),
      WorldCorpusBuilder.enqueueSubs visited depth (⟨"", ds⟩ :: subs) =
        WorldCorpusBuilder.enqueueSubs visited depth subs) ∧
    (∀ (svc : GenService) (max_depth : Int) (s : BuildState) (it : QItem)
      (rest : List QItem) (facts : List String) (subs : List SubtopicDetail)
      (art : String), s.queue = it :: rest → it.name ∉ s.visited_topics →
      ¬ (it.depth : Int) > max_depth → (it.depth : Int) < max_depth →
      svc.genFactsSubtopics it.name it.description s.ancestral_facts
        (WorldCorpusBuilder.numSubtopics it.depth) = some (facts, subs) →
      svc.genArticle it.name facts s.ancestral_facts = some art →
      WorldCorpusBuilder.step svc max_depth s =
        .next (WorldCorpusBuilder.processedState max_depth s it rest facts subs art) ∧
      (WorldCorpusBuilder.processedState max_depth s it rest facts subs art).queue =
        rest ++ WorldCorpusBuilder.enqueueSubs
          (s.visited_topics ++ [it.name]) it.depth subs) := by
  refine ⟨?_, ?_, ?_, ?_⟩
  · intro visited depth subs
    induction subs with
    | nil => rfl
    | cons st rest ih =>
      simp only [WorldCorpusBuilder.enqueueSubs]
      by_cases h : st.name ≠ "" ∧ st.name ∉ visited
      · rw [if_pos h, ih, List.filter_cons]
        simp [h]
      · rw [if_neg h, ih, List.filter_cons]
        simp only [decide_eq_true_eq]
        rw [if_neg h]
  · intro visited depth st subs h1 h2
    simp only [WorldCorpusBuilder.enqueueSubs]
    rw [if_pos ⟨h1, h2⟩]
  · intro visited depth ds subs
    simp [WorldCorpusBuilder.enqueueSubs]
  · intro svc max_depth s it rest facts subs art hq hv hd hlt hf ha
    constructor
    · unfold WorldCorpusBuilder.step
      rw [hq]
      simp [hv, hd, hf, ha, WorldCorpusBuilder.processedState]
    · simp [WorldCorpusBuilder.processedState, hlt]

/-- Witness for C9: a subtopic list holding a valid name, an empty name
and an already-visited name enqueues only the valid one at depth + 1, and
the processed root of the stub run enqueues B and C behind the remaining
queue. -/
theorem c9_witness :
    WorldCorpusBuilder.enqueueSubs ["A"] 1 [⟨"B", "dB"⟩, ⟨"", "x"⟩, ⟨"A", "dA"⟩] =
      (([⟨"B", "dB"⟩, ⟨"", "x"⟩, ⟨"A", "dA"⟩] : List SubtopicDetail).filter
        (fun st => decide (st.name ≠ "" ∧ st.name ∉ ["A"]))).map
          (fun st => ⟨st.name, st.description, 1 + 1⟩) ∧
    WorldCorpusBuilder.enqueueSubs ["A"] 1 (⟨"B", "dB"⟩ :: [⟨"A", "dA"⟩]) =
      ⟨"B", "dB", 1 + 1⟩ :: WorldCorpusBuilder.enqueueSubs ["A"] 1 [⟨"A", "dA"⟩] ∧
    WorldCorpusBuilder.enqueueSubs ["A"] 1 (⟨"", "x"⟩ :: [⟨"A", "dA"⟩]) =
      WorldCorpusBuilder.enqueueSubs ["A"] 1 [⟨"A", "dA"⟩] ∧
    (WorldCorpusBuilder.step svcDemo 1 (WorldCorpusBuilder.initState "A" "dA") =
      .next (WorldCorpusBuilder.processedState 1
        (WorldCorpusBuilder.initState "A" "dA") ⟨"A", "dA", 0⟩ []
        ["f1", "f2"] [⟨"B", "dB"⟩, ⟨"C", "dC"⟩] "art-A") ∧
    (WorldCorpusBuilder.processedState 1
        (WorldCorpusBuilder.initState "A" "dA") ⟨"A", "dA", 0⟩ []
        ["f1", "f2"] [⟨"B", "dB"⟩, ⟨"C", "dC"⟩] "art-A").queue =
      [] ++ WorldCorpusBuilder.enqueueSubs
        ((WorldCorpusBuilder.initState "A" "dA").visited_topics ++ ["A"]) 0
        [⟨"B", "dB"⟩, ⟨"C", "dC"⟩]) :=
  ⟨c9_enqueue_condition.1 ["A"] 1 [⟨"B", "dB"⟩, ⟨"", "x"⟩, ⟨"A", "dA"⟩],
   c9_enqueue_condition.2.1 ["A"] 1 ⟨"B", "dB"⟩ [⟨"A", "dA"⟩] (by decide)
     (by decide),
   c9_enqueue_condition.2.2.1 ["A"] 1 "x" [⟨"A", "dA"⟩],
   c9_enqueue_condition.2.2.2 svcDemo 1 (WorldCorpusBuilder.initState "A" "dA")
     ⟨"A", "dA", 0⟩ [] ["f1", "f2"] [⟨"B", "dB"⟩, ⟨"C", "dC"⟩] "art-A"
     rfl (by decide) (by decide) (by decide) (by decide) (by decide)⟩

/-- Claim C7: for every generation service that answers every call (with
finite facts and subtopics lists, as every value of the model is),
build_corpus terminates: some fuel lets the loop drain its queue and end
with status done. The number of topic-processing steps (one
facts-and-subtopics call each) equals the number of visited names, the
visited names are pairwise distinct and all drawn from the root plus the
subtopic names proposed during the run, so the processing steps number at
most V, the count of distinct names ever proposed. -/
theorem c7_terminates_bounded (svc : GenService) (max_depth : Int)
    (topic_name topic_description : String) (hT : SvcTotal svc) :
    ∃ fuel,
      (WorldCorpusBuilder.build_corpus svc topic_name topic_description
        max_depth fuel).2 = Status.done ∧
      WorldCorpusBuilder.fsCount
        (WorldCorpusBuilder.build_corpus svc topic_name topic_description
          max_depth fuel).1.trace =
        (WorldCorpusBuilder.build_corpus svc topic_name topic_description
          max_depth fuel).1.visited_topics.length ∧
      (WorldCorpusBuilder.build_corpus svc topic_name topic_description
        max_depth fuel).1.visited_topics.Nodup ∧
      WorldCorpusBuilder.fsCount
        (WorldCorpusBuilder.build_corpus svc topic_name topic_description
          max_depth fuel).1.trace ≤
        (topic_name :: WorldCorpusBuilder.proposedNames svc
          (WorldCorpusBuilder.build_corpus svc topic_name topic_description
            max_depth fuel).1.trace).dedup.length := by
  obtain ⟨fuel, hfuel⟩ := WorldCorpusBuilder.run_terminates_blocks svc max_depth
    ((max_depth + 1).toNat) [⟨topic_name, topic_description, 0⟩] [] 0
    (WorldCorpusBuilder.initState topic_name topic_description) rfl
    (by intro it h; rw [List.mem_singleton.mp h])
    (by intro it h; simp at h)
    (by omega)
  refine ⟨fuel, ?_⟩
  unfold WorldCorpusBuilder.build_corpus
  have hnf := WorldCorpusBuilder.run_not_failed svc hT max_depth fuel
    (WorldCorpusBuilder.initState topic_name topic_description)
  have hdone : (WorldCorpusBuilder.run svc max_depth fuel
      (WorldCorpusBuilder.initState topic_name topic_description)).2 =
      Status.done := by
    cases h : (WorldCorpusBuilder.run svc max_depth fuel
        (WorldCorpusBuilder.initState topic_name topic_description)).2
    · rfl
    · exact absurd h hnf
    · exact absurd h hfuel
  obtain ⟨hcnt, hvis, -⟩ := WorldCorpusBuilder.run_counted svc max_depth
    topic_name fuel (WorldCorpusBuilder.initState topic_name topic_description)
    (WorldCorpusBuilder.initState_counted svc topic_name topic_description)
  obtain ⟨⟨hnodup, -, -⟩, -, -, -⟩ := WorldCorpusBuilder.run_preserves svc
    max_depth fuel (WorldCorpusBuilder.initState topic_name topic_description)
    (WorldCorpusBuilder.initState_wf topic_name topic_description)
  refine ⟨hdone, hcnt, hnodup, ?_⟩
  rw [hcnt]
  exact WorldCorpusBuilder.nodup_subset_dedup_length hnodup hvis

/-- Witness for C7: the stub run terminates with three processed topics,
bounded by the distinct proposed names. -/
theorem c7_witness :
    ∃ fuel,
      (WorldCorpusBuilder.build_corpus svcDemo "A" "dA" 1 fuel).2 =
        Status.done ∧
      WorldCorpusBuilder.fsCount
        (WorldCorpusBuilder.build_corpus svcDemo "A" "dA" 1 fuel).1.trace =
        (WorldCorpusBuilder.build_corpus svcDemo "A" "dA" 1
          fuel).1.visited_topics.length ∧
      (WorldCorpusBuilder.build_corpus svcDemo "A" "dA" 1
        fuel).1.visited_topics.Nodup ∧
      WorldCorpusBuilder.fsCount
        (WorldCorpusBuilder.build_corpus svcDemo "A" "dA" 1 fuel).1.trace ≤
        (("A" : String) :: WorldCorpusBuilder.proposedNames svcDemo
          (WorldCorpusBuilder.build_corpus svcDemo "A" "dA" 1
            fuel).1.trace).dedup.length :=
  c7_terminates_bounded svcDemo 1 "A" "dA"
    ⟨fun _ _ _ _ => rfl, fun _ _ _ => rfl⟩

/-- Claim C10: WorldCorpusBuilder.build_corpus (world_generator.py) and
BFSWorldCorpusBuilder.build_corpus (generate_world.py) are behaviourally
equivalent: for every root topic name and description, every max_depth,
every generation-service behaviour and every fuel, they reach the same
final state (same corpus, same visited set, same queue, same ancestral
facts, and in particular the same sequence of generation calls with the
same arguments) and the same status. -/
theorem c10_builders_equivalent (svc : GenService)
    (topic_name topic_description : String) (max_depth : Int) (fuel : Nat) :
    BFSWorldCorpusBuilder.build_corpus svc topic_name topic_description max_depth fuel =
      WorldCorpusBuilder.build_corpus svc topic_name topic_description max_depth fuel := by
  unfold BFSWorldCorpusBuilder.build_corpus WorldCorpusBuilder.build_corpus
  rw [run_eq, initState_eq]
